import Mathlib

/-!
# The resolvers of `src/index.js` over an explicit object store

`src/index.js` keeps three module-level arrays (`users`, `profiles`, `posts`) and three
counters, and exposes thirteen resolver functions in `root`.  JavaScript objects are
references: the same user object is reachable from `users`, from `profile.user` and from
`post.author`, and two resolvers (`user`, `post`) assign to properties of stored objects.
The embedding therefore keeps user objects and post objects in two heaps (lists indexed
by address) and lets the arrays hold addresses, which are natural numbers.  Profile objects are never assigned to
after their creation (`updateProfile` installs a fresh object), so an alias to one cannot
be told from a copy and profiles are kept by value.

* A property of an object or of a GraphQL input is `Field α`: missing, `null`, or a value.
* `new Date().toISOString()` is modelled by the clock reading itself, a number of
  milliseconds handed to the resolver; the ISO rendering is order preserving for
  four-digit years, so comparisons of readings are comparisons of the stored strings.
* The counters are natural numbers and `String(n)` is the decimal rendering `Nat.repr`.
  A counter would have to pass `10^21` before `String` left plain decimal notation.
* A resolver returns its outcome (`Except JsError _`: a returned value or a thrown
  error) together with the store it leaves behind.
* JavaScript has no address without an object behind it.  Where the lists of the
  embedding could express one, a lookup through it finds nothing and a read through it
  is the `TypeError` of reading through `undefined`; no reachable store contains one
  (`Reachable.inv`).
-/

namespace YnovGraphql

deriving instance DecidableEq for Except

/-- A property of a JavaScript object or of a GraphQL input object: the key is missing
(`undefined` when read), holds `null`, or holds a value. -/
inductive Field (α : Type) where
  | absent : Field α
  | null : Field α
  | val (a : α) : Field α
  deriving DecidableEq

/-- The effect of the object spread `{...old, ...input}` on one property: a key that the
input carries (even with `null`) overwrites, a key that it lacks leaves the old one. -/
def Field.merge {α : Type} (old input : Field α) : Field α :=
  match input with
  | .absent => old
  | .null => .null
  | .val a => .val a

/-- Errors a resolver can throw. -/
inductive JsError where
  /-- The `throw new Error('Author not found')` of `addPost`. -/
  | authorNotFound : JsError
  /-- Reading a property of, or calling a method on, `undefined` or `null`. -/
  | typeError : JsError
  deriving DecidableEq

/-- `type SocialLink` / `input SocialLinkInput`. -/
structure SocialLink where
  platform : String
  url : String
  deriving DecidableEq

/-- A profile object, as built by `createUser` and rebuilt by `updateProfile`. -/
structure Profile where
  id : String
  user : Nat
  bio : Field String
  location : Field String
  website : Field String
  profilePicture : Field String
  coverPicture : Field String
  followers : Nat
  following : Nat
  socialLinks : Field (List (Option SocialLink))
  deriving DecidableEq

/-- A user object: `{id, ...input, dateJoined}` of `createUser`, plus the two properties
`posts` and `profile` that `user` assigns (`none` while the key is missing;
`profile = some none` when `profiles.find` gave `undefined`). -/
structure User where
  id : String
  username : String
  email : Field String
  password : String
  firstName : Field String
  lastName : Field String
  dateJoined : Nat
  posts : Option (List Nat)
  profile : Option (Option Profile)
  deriving DecidableEq

/-- `type Comment`; no resolver builds one. -/
structure Comment where
  id : String
  content : String
  author : Nat
  createdAt : Nat
  deriving DecidableEq

/-- A post object: `{id, ...input, author, createdAt, updatedAt, likes, comments}` of
`addPost`.  `author` is `none` when the property holds `undefined`, which is what `post`
assigns when `users.find` finds nothing. -/
structure Post where
  id : String
  title : Field String
  content : Field String
  authorId : String
  author : Option Nat
  createdAt : Nat
  updatedAt : Nat
  likes : Nat
  comments : List Comment
  deriving DecidableEq

/-- `input UserCreateInput`. -/
structure UserCreateInput where
  username : String
  email : String
  password : String
  firstName : Field String
  lastName : Field String
  deriving DecidableEq

/-- `input UserUpdateInput`. -/
structure UserUpdateInput where
  email : Field String
  firstName : Field String
  lastName : Field String
  deriving DecidableEq

/-- `input UserSearchInput`. -/
structure UserSearchInput where
  username : Field String
  firstName : Field String
  lastName : Field String
  deriving DecidableEq

/-- `input PostCreateInput`. -/
structure PostCreateInput where
  title : Field String
  content : String
  authorId : String
  deriving DecidableEq

/-- `input PostUpdateInput`. -/
structure PostUpdateInput where
  title : Field String
  content : Field String
  deriving DecidableEq

/-- `input ProfileUpdateInput`. -/
structure ProfileUpdateInput where
  bio : Field String
  location : Field String
  website : Field String
  profilePicture : Field String
  coverPicture : Field String
  socialLinks : Field (List (Option SocialLink))
  deriving DecidableEq

/-- The module state of `src/index.js` (lines 136-141) with the two object heaps. -/
structure Store where
  /-- Every user object allocated so far; the address of a user object is its index here. -/
  userObjs : List User
  /-- Every post object allocated so far; the address of a post object is its index here. -/
  postObjs : List Post
  users : List Nat
  profiles : List Profile
  posts : List Nat
  userIdCounter : Nat
  postIdCounter : Nat
  profileIdCounter : Nat
  deriving DecidableEq

/-- The state right after the module is loaded. -/
def Store.empty : Store :=
  { userObjs := [], postObjs := [], users := [], profiles := [], posts := [],
    userIdCounter := 0, postIdCounter := 0, profileIdCounter := 0 }

/-- `String(n)` for a counter value. -/
def jsString (n : Nat) : String := Nat.repr n

/-- `u.id` for the user object at address `r`. -/
def Store.userId? (s : Store) (r : Nat) : Option String :=
  (s.userObjs[r]?).map (fun u => u.id)

/-- `p.id` for the post object at address `r`. -/
def Store.postId? (s : Store) (r : Nat) : Option String :=
  (s.postObjs[r]?).map (fun p => p.id)

/-- `post.author.id` for a post object; `none` when `post.author` is `undefined`, where
the read throws. -/
def Store.authorIdOf? (s : Store) (p : Post) : Option String :=
  p.author.bind s.userId?

/-- `post.author.id` for the post object at address `r`. -/
def Store.authorId? (s : Store) (r : Nat) : Option String :=
  (s.postObjs[r]?).bind s.authorIdOf?

/-- `users.find(u => u.id === id)`. -/
def Store.findUser (s : Store) (id : String) : Option Nat :=
  s.users.find? (fun r => s.userId? r == some id)

/-- `posts.find(p => p.id === id)`. -/
def Store.findPost (s : Store) (id : String) : Option Nat :=
  s.posts.find? (fun r => s.postId? r == some id)

/-- `profiles.find(p => p.user.id === userId)`. -/
def Store.findProfile (s : Store) (userId : String) : Option Profile :=
  s.profiles.find? (fun p => s.userId? p.user == some userId)

/-- `xs.findIndex(p)`, with `none` for the `-1` of JavaScript. -/
def findIndex {α : Type} (p : α → Bool) (xs : List α) : Option Nat :=
  if xs.findIdx p < xs.length then some (xs.findIdx p) else none

/-- `xs.filter(f)` for a callback that may throw: the first throw ends the scan. -/
def filterExcept {α : Type} (f : α → Except JsError Bool) : List α → Except JsError (List α)
  | [] => .ok []
  | x :: xs =>
    match f x with
    | .error e => .error e
    | .ok b =>
      match filterExcept f xs with
      | .error e => .error e
      | .ok rest => .ok (if b then x :: rest else rest)

/-- `xs.map(f)` for a callback that may throw: the first throw ends the scan. -/
def mapExcept {α β : Type} (f : α → Except JsError β) : List α → Except JsError (List β)
  | [] => .ok []
  | x :: xs =>
    match f x with
    | .error e => .error e
    | .ok y =>
      match mapExcept f xs with
      | .error e => .error e
      | .ok rest => .ok (y :: rest)

/-- The callback `post => post.author.id === uid`; reading `.id` of an `undefined`
author throws. -/
def Store.authorIs (s : Store) (uid : String) (r : Nat) : Except JsError Bool :=
  match s.authorId? r with
  | none => .error .typeError
  | some a => .ok (a == uid)

/-- `posts.filter(post => post.author.id === uid)`. -/
def Store.filterByAuthor (s : Store) (uid : String) : Except JsError (List Nat) :=
  filterExcept (s.authorIs uid) s.posts

/-- `users.find(u => u.id === post.author.id)`: the callback reads `post.author.id` once
per visited user, so nothing is read (and nothing thrown) when `users` is empty. -/
def Store.resolveAuthor (s : Store) (p : Post) : Except JsError (Option Nat) :=
  match s.users with
  | [] => .ok none
  | _ :: _ =>
    match s.authorIdOf? p with
    | none => .error .typeError
    | some a => .ok (s.findUser a)

/-- `arr.slice(start, stop)` for integer arguments, negative ones counting from the
end of the array. -/
def jsSlice {α : Type} (xs : List α) (start stop : Int) : List α :=
  let len : Int := xs.length
  let k : Int := if start < 0 then max (len + start) 0 else min start len
  let fin : Int := if stop < 0 then max (len + stop) 0 else min stop len
  (xs.drop k.toNat).take (fin - k).toNat

/-- The number an argument of `posts` stands for: the default applies to `undefined`
only; `null` counts as `0` both in `offset + limit` and as an index of `slice`. -/
def argInt (dflt : Int) : Field Int → Int
  | .absent => dflt
  | .null => 0
  | .val v => v

/-- `s.toLowerCase().includes(t.toLowerCase())`, for a given `toLowerCase`. -/
def includesLower (lower : String → String) (s t : String) : Bool :=
  decide ((lower t).data <:+: (lower s).data)

/-- `field.toLowerCase().includes(needle.toLowerCase())` on a property that may be
missing or `null`, where the method call throws. -/
def fieldIncludes (lower : String → String) (field : Field String) (needle : String) :
    Except JsError Bool :=
  match field with
  | .val v => .ok (includesLower lower v needle)
  | _ => .error .typeError

/-- The callback of `usersByName`: `||` does not evaluate its right operand when the
left one is true. -/
def nameMatches (lower : String → String) (name : String) (u : User) : Except JsError Bool :=
  match fieldIncludes lower u.firstName name with
  | .error e => .error e
  | .ok true => .ok true
  | .ok false => fieldIncludes lower u.lastName name

/-- One line `if (filter.f && !user.f.toLowerCase().includes(filter.f.toLowerCase()))
return false` of `searchUsers`: whether it returns `false`.  A missing, `null` or empty
filter value is falsy and the user's property is then not read. -/
def clauseRejects (lower : String → String) (needle field : Field String) :
    Except JsError Bool :=
  match needle with
  | .val n =>
    if n = "" then .ok false
    else
      match fieldIncludes lower field n with
      | .error e => .error e
      | .ok b => .ok (!b)
  | _ => .ok false

/-- The callback of `searchUsers`; `filter.username` throws when the `filter` argument
itself is missing or `null`. -/
def searchMatches (lower : String → String) (filter : Field UserSearchInput) (u : User) :
    Except JsError Bool :=
  match filter with
  | .val f =>
    match clauseRejects lower f.username (.val u.username) with
    | .error e => .error e
    | .ok true => .ok false
    | .ok false =>
      match clauseRejects lower f.firstName u.firstName with
      | .error e => .error e
      | .ok true => .ok false
      | .ok false =>
        match clauseRejects lower f.lastName u.lastName with
        | .error e => .error e
        | .ok true => .ok false
        | .ok false => .ok true
  | _ => .error .typeError

/-- A callback on user objects, run on the address `r` of one. -/
def Store.onUser (s : Store) (f : User → Except JsError Bool) (r : Nat) :
    Except JsError Bool :=
  match s.userObjs[r]? with
  | none => .error .typeError
  | some u => f u

/-! ## Query resolvers (`src/index.js`, lines 146-195) -/

/-- `root.user`. -/
def user (s : Store) (id : String) : Except JsError (Option Nat) × Store :=
  match s.findUser id with
  | none => (.ok none, s)
  | some r =>
    match s.userObjs[r]? with
    | none => (.error .typeError, s)
    | some u =>
      match s.filterByAuthor u.id with
      | .error e => (.error e, s)
      | .ok ps =>
        (.ok (some r),
          { s with userObjs :=
              s.userObjs.set r { u with posts := some ps, profile := some (s.findProfile u.id) } })

/-- `root.usersByName`. -/
def usersByName (lower : String → String) (s : Store) (name : String) :
    Except JsError (List Nat) × Store :=
  (filterExcept (s.onUser (nameMatches lower name)) s.users, s)

/-- `root.searchUsers`. -/
def searchUsers (lower : String → String) (s : Store) (filter : Field UserSearchInput) :
    Except JsError (List Nat) × Store :=
  (filterExcept (s.onUser (searchMatches lower filter)) s.users, s)

/-- `root.post`. -/
def post (s : Store) (id : String) : Except JsError (Option Nat) × Store :=
  match s.findPost id with
  | none => (.ok none, s)
  | some r =>
    match s.postObjs[r]? with
    | none => (.error .typeError, s)
    | some p =>
      match s.resolveAuthor p with
      | .error e => (.error e, s)
      | .ok a => (.ok (some r), { s with postObjs := s.postObjs.set r { p with author := a } })

/-- The callback `post => ({...post, author: users.find(u => u.id === post.author.id)})`
of `posts`, which builds a fresh object. -/
def Store.withLiveAuthor (s : Store) (r : Nat) : Except JsError Post :=
  match s.postObjs[r]? with
  | none => .error .typeError
  | some p =>
    match s.resolveAuthor p with
    | .error e => .error e
    | .ok a => .ok { p with author := a }

/-- `root.posts`, with `limit = 10` and `offset = 0` as defaults. -/
def posts (s : Store) (limit offset : Field Int) : Except JsError (List Post) × Store :=
  let off := argInt 0 offset
  let lim := argInt 10 limit
  (mapExcept s.withLiveAuthor (jsSlice s.posts off (off + lim)), s)

/-- `root.userPosts`. -/
def userPosts (s : Store) (userId : String) : Except JsError (List Nat) × Store :=
  (s.filterByAuthor userId, s)

/-- `root.profile`. -/
def profile (s : Store) (userId : String) : Except JsError (Option Profile) × Store :=
  (.ok (s.findProfile userId), s)

/-! ## Mutation resolvers (`src/index.js`, lines 198-282) -/

/-- The `newUser` object of `createUser`: `{id: String(userIdCounter++), ...input,
dateJoined}`; `now` is the reading of `new Date()`. -/
def newUser (s : Store) (input : UserCreateInput) (now : Nat) : User :=
  { id := jsString s.userIdCounter, username := input.username, email := .val input.email,
    password := input.password, firstName := input.firstName, lastName := input.lastName,
    dateJoined := now, posts := none, profile := none }

/-- The `newProfile` object of `createUser`; its `user` is the new user object, which
gets the next free address. -/
def newProfile (s : Store) : Profile :=
  { id := jsString s.profileIdCounter, user := s.userObjs.length, bio := .val "",
    location := .val "", website := .val "", profilePicture := .val "",
    coverPicture := .val "", followers := 0, following := 0, socialLinks := .val [] }

/-- `root.createUser`. -/
def createUser (s : Store) (input : UserCreateInput) (now : Nat) :
    Except JsError Nat × Store :=
  (.ok s.userObjs.length,
    { s with userObjs := s.userObjs ++ [newUser s input now],
             users := s.users ++ [s.userObjs.length],
             profiles := s.profiles ++ [newProfile s],
             userIdCounter := s.userIdCounter + 1,
             profileIdCounter := s.profileIdCounter + 1 })

/-- `{ ...users[userIndex], ...input }`. -/
def User.merge (u : User) (input : UserUpdateInput) : User :=
  { u with email := u.email.merge input.email, firstName := u.firstName.merge input.firstName,
           lastName := u.lastName.merge input.lastName }

/-- `root.updateUser`; the result `none` is the returned `null`. -/
def updateUser (s : Store) (id : String) (input : UserUpdateInput) :
    Except JsError (Option Nat) × Store :=
  match findIndex (fun r => s.userId? r == some id) s.users with
  | none => (.ok none, s)
  | some i =>
    match (s.users[i]?).bind (fun r => s.userObjs[r]?) with
    | none => (.error .typeError, s)
    | some u =>
      (.ok (some s.userObjs.length),
        { s with userObjs := s.userObjs ++ [u.merge input],
                 users := s.users.set i s.userObjs.length })

/-- The `newPost` object of `addPost` for the author object at address `a`; `now1` and
`now2` are the readings of the two `new Date()` calls, in source order (`createdAt`,
then `updatedAt`). -/
def newPost (s : Store) (input : PostCreateInput) (a : Nat) (now1 now2 : Nat) : Post :=
  { id := jsString s.postIdCounter, title := input.title, content := .val input.content,
    authorId := input.authorId, author := some a, createdAt := now1, updatedAt := now2,
    likes := 0, comments := [] }

/-- `root.addPost`. -/
def addPost (s : Store) (input : PostCreateInput) (now1 now2 : Nat) :
    Except JsError Nat × Store :=
  match s.findUser input.authorId with
  | none => (.error .authorNotFound, s)
  | some a =>
    (.ok s.postObjs.length,
      { s with postObjs := s.postObjs ++ [newPost s input a now1 now2],
               posts := s.posts ++ [s.postObjs.length],
               postIdCounter := s.postIdCounter + 1 })

/-- `{ ...posts[postIndex], ...input, updatedAt: new Date().toISOString() }`. -/
def Post.merge (p : Post) (input : PostUpdateInput) (now : Nat) : Post :=
  { p with title := p.title.merge input.title, content := p.content.merge input.content,
           updatedAt := now }

/-- `root.updatePost`; the result `none` is the returned `null`. -/
def updatePost (s : Store) (id : String) (input : PostUpdateInput) (now : Nat) :
    Except JsError (Option Nat) × Store :=
  match findIndex (fun r => s.postId? r == some id) s.posts with
  | none => (.ok none, s)
  | some i =>
    match (s.posts[i]?).bind (fun r => s.postObjs[r]?) with
    | none => (.error .typeError, s)
    | some p =>
      (.ok (some s.postObjs.length),
        { s with postObjs := s.postObjs ++ [p.merge input now],
                 posts := s.posts.set i s.postObjs.length })

/-- `root.deletePost`; `posts.splice(postIndex, 1)` is `eraseIdx`. -/
def deletePost (s : Store) (id : String) : Except JsError Bool × Store :=
  match findIndex (fun r => s.postId? r == some id) s.posts with
  | none => (.ok false, s)
  | some i => (.ok true, { s with posts := s.posts.eraseIdx i })

/-- `{ ...profiles[profileIndex], ...input }`. -/
def Profile.merge (p : Profile) (input : ProfileUpdateInput) : Profile :=
  { p with bio := p.bio.merge input.bio, location := p.location.merge input.location,
           website := p.website.merge input.website,
           profilePicture := p.profilePicture.merge input.profilePicture,
           coverPicture := p.coverPicture.merge input.coverPicture,
           socialLinks := p.socialLinks.merge input.socialLinks }

/-- `root.updateProfile`; the result `none` is the returned `null`. -/
def updateProfile (s : Store) (userId : String) (input : ProfileUpdateInput) :
    Except JsError (Option Profile) × Store :=
  match findIndex (fun p => s.userId? p.user == some userId) s.profiles with
  | none => (.ok none, s)
  | some i =>
    match s.profiles[i]? with
    | none => (.error .typeError, s)
    | some p => (.ok (some (p.merge input)), { s with profiles := s.profiles.set i (p.merge input) })

/-! ## Resolver calls and reachable stores -/

/-- One call of a resolver of `root` with arguments that pass the schema, together with
what the call reads from its environment (the clock, `toLowerCase`). -/
inductive Call where
  | user (id : String) : Call
  | usersByName (lower : String → String) (name : String) : Call
  | searchUsers (lower : String → String) (filter : Field UserSearchInput) : Call
  | post (id : String) : Call
  | posts (limit offset : Field Int) : Call
  | userPosts (userId : String) : Call
  | profile (userId : String) : Call
  | createUser (input : UserCreateInput) (now : Nat) : Call
  | updateUser (id : String) (input : UserUpdateInput) : Call
  | addPost (input : PostCreateInput) (now1 now2 : Nat) : Call
  | updatePost (id : String) (input : PostUpdateInput) (now : Nat) : Call
  | deletePost (id : String) : Call
  | updateProfile (userId : String) (input : ProfileUpdateInput) : Call

/-- The store a call leaves behind, whether it returned or threw. -/
def Call.run (c : Call) (s : Store) : Store :=
  match c with
  | .user id => (YnovGraphql.user s id).2
  | .usersByName lower name => (YnovGraphql.usersByName lower s name).2
  | .searchUsers lower filter => (YnovGraphql.searchUsers lower s filter).2
  | .post id => (YnovGraphql.post s id).2
  | .posts limit offset => (YnovGraphql.posts s limit offset).2
  | .userPosts userId => (YnovGraphql.userPosts s userId).2
  | .profile userId => (YnovGraphql.profile s userId).2
  | .createUser input now => (YnovGraphql.createUser s input now).2
  | .updateUser id input => (YnovGraphql.updateUser s id input).2
  | .addPost input now1 now2 => (YnovGraphql.addPost s input now1 now2).2
  | .updatePost id input now => (YnovGraphql.updatePost s id input now).2
  | .deletePost id => (YnovGraphql.deletePost s id).2
  | .updateProfile userId input => (YnovGraphql.updateProfile s userId input).2

/-- The stores that resolver calls can produce from the empty store. -/
inductive Reachable : Store → Prop where
  | init : Reachable Store.empty
  | step {s : Store} (c : Call) : Reachable s → Reachable (c.run s)

/-- The clock readings of a call are in order and none is before `t`. -/
def Call.clockFrom (t : Nat) : Call → Prop
  | .createUser _ now => t ≤ now
  | .addPost _ now1 now2 => t ≤ now1 ∧ now1 ≤ now2
  | .updatePost _ _ now => t ≤ now
  | _ => True

/-- The latest clock reading once the call is over, `t` being the latest one before. -/
def Call.clockAfter (t : Nat) : Call → Nat
  | .createUser _ now => now
  | .addPost _ _ now2 => now2
  | .updatePost _ _ now => now
  | _ => t

/-- The stores reachable under a clock that never goes backwards; the index is a time
that no reading made so far exceeds. -/
inductive ReachableAt : Nat → Store → Prop where
  | init (t : Nat) : ReachableAt t Store.empty
  | step {t : Nat} {s : Store} (c : Call) :
      ReachableAt t s → c.clockFrom t → ReachableAt (c.clockAfter t) (c.run s)
  | wait {t t2 : Nat} {s : Store} : ReachableAt t s → t ≤ t2 → ReachableAt t2 s

/-- Runs a list of calls from a store, first call first. -/
def runAll (cs : List Call) (s : Store) : Store :=
  cs.foldl (fun st c => c.run st) s

/-! ## Views of a store and its invariant -/

/-- The ids of the stored users, in array order. -/
def Store.userIds (s : Store) : List (Option String) := s.users.map s.userId?

/-- The ids of the stored posts, in array order. -/
def Store.postIds (s : Store) : List (Option String) := s.posts.map s.postId?

/-- The `user.id` of the stored profiles, in array order. -/
def Store.profileUserIds (s : Store) : List (Option String) :=
  s.profiles.map (fun p => s.userId? p.user)

/-- The ids of the stored profiles, in array order. -/
def Store.profileIds (s : Store) : List String := s.profiles.map (fun p => p.id)

/-- The ids `String(0)`, ..., `String(n - 1)` handed out by a counter that stands at `n`. -/
def idsBelow (n : Nat) : List (Option String) :=
  (List.range n).map (fun k => some (jsString k))

/-- What every reachable store satisfies. -/
structure Inv (s : Store) : Prop where
  userIds : s.userIds = idsBelow s.userIdCounter
  profileUserIds : s.profileUserIds = idsBelow s.userIdCounter
  profileIds : s.profileIds = (List.range s.profileIdCounter).map jsString
  postIds : s.postIds.Sublist (idsBelow s.postIdCounter)
  userObjIds : ∀ u ∈ s.userObjs, ∃ k, k < s.userIdCounter ∧ u.id = jsString k
  postObjIds : ∀ p ∈ s.postObjs, ∃ k, k < s.postIdCounter ∧ p.id = jsString k
  authors : ∀ p ∈ s.postObjs, ∃ a, p.author = some a ∧ a < s.userObjs.length

/-- Every stored post is a post object whose `author` is a user object, as `type Post`
(`author: User!`) and the data model require; reading `post.author.id` then succeeds. -/
def Store.PostsHaveAuthors (s : Store) : Prop :=
  ∀ r ∈ s.posts, (s.authorId? r).isSome = true

instance (s : Store) : Decidable s.PostsHaveAuthors :=
  inferInstanceAs (Decidable (∀ r ∈ s.posts, (s.authorId? r).isSome = true))

/-! ## Concrete stores, built by calls from the empty store -/

/-- The input of the end-to-end example: `{username: "al", email: "a@x.com", ...}`. -/
def alInput : UserCreateInput :=
  { username := "al", email := "a@x.com", password := "p",
    firstName := .val "A", lastName := .val "L" }

/-- A post input for author `"0"`. -/
def postInput (title : String) : PostCreateInput :=
  { title := .val title, content := "hi", authorId := "0" }

/-- The store after one `createUser`. -/
def storeOneUser : Store :=
  runAll [.createUser alInput 1000] Store.empty

/-- The store after one `createUser` and one `addPost`. -/
def storeOnePost : Store :=
  runAll [.addPost (postInput "T") 2000 2000] storeOneUser

/-- The store after one `createUser` and five `addPost`. -/
def storeFivePosts : Store :=
  runAll [.addPost (postInput "a") 2000 2000, .addPost (postInput "b") 2001 2001,
    .addPost (postInput "c") 2002 2002, .addPost (postInput "d") 2003 2003,
    .addPost (postInput "e") 2004 2004] storeOneUser

/-- An update that overwrites `email`, leaves `firstName` and sets `lastName` to `null`. -/
def alUpdate : UserUpdateInput :=
  { email := .val "b@x.com", firstName := .absent, lastName := .null }

/-- The store after `createUser`, `addPost` and `updateUser`: the post's `author` is the
user object that `updateUser` has replaced. -/
def storeStaleAuthor : Store :=
  runAll [.updateUser "0" alUpdate] storeOnePost

/-- `toLowerCase` on ASCII strings, for the concrete examples. -/
def asciiLower (s : String) : String := ⟨s.data.map Char.toLower⟩

/-- A `createUser` input with `firstName: "A"` and no `lastName`. -/
def noLastNameInput : UserCreateInput :=
  { username := "al", email := "a@x.com", password := "p",
    firstName := .val "A", lastName := .absent }

/-- The store after one `createUser` whose input has no `lastName`. -/
def storeNoLastName : Store :=
  runAll [.createUser noLastNameInput 1000] Store.empty

/-- A `searchUsers` filter with no field supplied. -/
def noFilter : UserSearchInput :=
  { username := .absent, firstName := .absent, lastName := .absent }

/-- A `searchUsers` filter with `username: "AL"`, `firstName: null`, `lastName: "l"`. -/
def alFilter : UserSearchInput :=
  { username := .val "AL", firstName := .null, lastName := .val "l" }

/-- The wording of the specification for one field of `searchUsers`: a supplied filter
value is a case-insensitive substring of the user's value. -/
def specFieldOk (lower : String → String) (needle field : Field String) : Bool :=
  match needle with
  | .val n =>
    match field with
    | .val v => includesLower lower v n
    | _ => false
  | _ => true

/-- The wording of the specification for `searchUsers`: the conjunction over the
supplied fields of `username`, `firstName` and `lastName`. -/
def specSearchMatch (lower : String → String) (f : UserSearchInput) (u : User) : Bool :=
  specFieldOk lower f.username (.val u.username) &&
    (specFieldOk lower f.firstName u.firstName && specFieldOk lower f.lastName u.lastName)

/-- No stored profile has followers or followings, and no post object has likes or
comments. -/
def Store.NothingCounted (s : Store) : Prop :=
  (∀ p ∈ s.profiles, p.followers = 0 ∧ p.following = 0) ∧
  (∀ p ∈ s.postObjs, p.likes = 0 ∧ p.comments = [])

/-- Value of a decimal digit character. -/
def digitValue (c : Char) : Nat := c.toNat - 48

/-- Reads a list of decimal digits, most significant first, on top of `acc`. -/
def readDigits (acc : Nat) (cs : List Char) : Nat :=
  cs.foldl (fun a c => a * 10 + digitValue c) acc

/-! ## Decimal rendering -/

theorem digitValue_digitChar (k : Nat) (h : k < 10) : digitValue (Nat.digitChar k) = k := by
  interval_cases k <;> rfl

theorem readDigits_toDigitsCore (fuel : Nat) :
    ∀ (n : Nat) (ds : List Char), n < fuel →
      readDigits 0 (Nat.toDigitsCore 10 fuel n ds) = readDigits n ds := by
  induction fuel with
  | zero => intro n ds h; omega
  | succ f ih =>
    intro n ds h
    simp only [Nat.toDigitsCore]
    have hd : digitValue (Nat.digitChar (n % 10)) = n % 10 :=
      digitValue_digitChar _ (Nat.mod_lt _ (by decide))
    split
    · rename_i h0
      have hn : n % 10 = n := by omega
      rw [hn] at hd
      simp only [readDigits, List.foldl_cons, hd, hn, Nat.zero_mul, Nat.zero_add]
    · rename_i h0
      rw [ih (n / 10) _ (by omega)]
      simp only [readDigits, List.foldl_cons, hd]
      congr 1
      omega

theorem readDigits_jsString (n : Nat) : readDigits 0 (jsString n).data = n := by
  simp only [jsString, Nat.repr, Nat.toDigits, List.asString]
  rw [readDigits_toDigitsCore _ _ _ (Nat.lt_succ_self n)]
  rfl

theorem jsString_injective : Function.Injective jsString := by
  intro a b h
  have := congrArg (fun s => readDigits 0 s.data) h
  simpa [readDigits_jsString] using this

theorem idsBelow_succ (n : Nat) : idsBelow (n + 1) = idsBelow n ++ [some (jsString n)] := by
  simp [idsBelow, List.range_succ]

theorem idsBelow_nodup (n : Nat) : (idsBelow n).Nodup := by
  unfold idsBelow
  apply List.Nodup.map _ (List.nodup_range n)
  intro a b h
  exact jsString_injective (Option.some.inj h)

theorem mem_idsBelow {n : Nat} {x : Option String} :
    x ∈ idsBelow n ↔ ∃ k, k < n ∧ x = some (jsString k) := by
  simp only [idsBelow, List.mem_map, List.mem_range]
  constructor
  · rintro ⟨k, hk, rfl⟩; exact ⟨k, hk, rfl⟩
  · rintro ⟨k, hk, rfl⟩; exact ⟨k, hk, rfl⟩

theorem length_idsBelow (n : Nat) : (idsBelow n).length = n := by
  simp [idsBelow]

theorem jsString_not_mem_idsBelow (n : Nat) : some (jsString n) ∉ idsBelow n := by
  intro h
  obtain ⟨k, hk, he⟩ := mem_idsBelow.1 h
  have := jsString_injective (Option.some.inj he)
  omega


/-! ## Lists -/

theorem set_eq_self {α : Type} (l : List α) (i : Nat) (a : α) (h : l[i]? = some a) :
    l.set i a = l := by
  apply List.ext_getElem?
  intro j
  rw [List.getElem?_set]
  split
  · rename_i hij
    subst hij
    split
    · exact h.symm
    · rename_i hlt
      rw [List.getElem?_eq_none (by omega)]
  · rfl

theorem map_set_same {α β : Type} (f g : α → β) (l : List α) (i : Nat) (a x : α)
    (hx : l[i]? = some x) (hfg : ∀ y ∈ l, g y = f y) (ha : g a = f x) :
    (l.set i a).map g = l.map f := by
  rw [List.map_set, List.map_congr_left hfg, ha]
  apply set_eq_self
  simp [hx]

theorem findIndex_eq_none {α : Type} {p : α → Bool} {xs : List α} :
    findIndex p xs = none ↔ ∀ x ∈ xs, p x = false := by
  unfold findIndex
  split
  · rename_i h
    constructor
    · intro h0; cases h0
    · intro hall
      have := List.findIdx_eq_length.2 hall
      omega
  · rename_i h
    constructor
    · intro _
      have hle : xs.findIdx p ≤ xs.length := List.findIdx_le_length p
      exact List.findIdx_eq_length.1 (by omega)
    · intro _; rfl

theorem findIndex_eq_some {α : Type} {p : α → Bool} {xs : List α} {i : Nat}
    (h : findIndex p xs = some i) :
    ∃ x, xs[i]? = some x ∧ p x = true ∧ ∀ j y, j < i → xs[j]? = some y → p y = false := by
  unfold findIndex at h
  split at h
  · rename_i hlt
    cases h
    refine ⟨xs[xs.findIdx p], by simp [hlt], List.findIdx_getElem, ?_⟩
    intro j y hj hy
    have hjl : j < xs.length := by omega
    have := List.not_of_lt_findIdx hj
    rw [List.getElem?_eq_getElem hjl] at hy
    cases hy
    exact this
  · cases h

theorem findIndex_isSome_of_mem {α : Type} {p : α → Bool} {xs : List α} {x : α}
    (hx : x ∈ xs) (hp : p x = true) : ∃ i, findIndex p xs = some i := by
  cases h : findIndex p xs with
  | some i => exact ⟨i, rfl⟩
  | none =>
    have := findIndex_eq_none.1 h x hx
    rw [hp] at this
    cases this

theorem find?_eq_getElem?_findIndex {α : Type} {p : α → Bool} {xs : List α} {i : Nat}
    (h : findIndex p xs = some i) : xs.find? p = xs[i]? := by
  induction xs generalizing i with
  | nil => simp [findIndex] at h
  | cons x xs ih =>
    unfold findIndex at h
    rw [List.findIdx_cons] at h
    cases hp : p x with
    | true =>
      simp only [hp, cond_true, List.length_cons] at h
      split at h
      · cases h; simp [List.find?, hp]
      · cases h
    | false =>
      simp only [hp, cond_false, List.length_cons] at h
      split at h
      · rename_i hlt
        cases h
        have : findIndex p xs = some (xs.findIdx p) := by
          unfold findIndex
          rw [if_pos (by omega)]
        simp [List.find?, hp, ih this]
      · cases h

theorem find?_eq_none_of_findIndex {α : Type} {p : α → Bool} {xs : List α}
    (h : findIndex p xs = none) : xs.find? p = none := by
  rw [List.find?_eq_none]
  intro x hx
  simp [findIndex_eq_none.1 h x hx]

/-! ## Heaps -/

theorem userId?_lt {s : Store} {r : Nat} {id : String} (h : s.userId? r = some id) :
    r < s.userObjs.length := by
  unfold Store.userId? at h
  by_contra hn
  rw [List.getElem?_eq_none (by omega)] at h
  cases h

theorem postId?_lt {s : Store} {r : Nat} {id : String} (h : s.postId? r = some id) :
    r < s.postObjs.length := by
  unfold Store.postId? at h
  by_contra hn
  rw [List.getElem?_eq_none (by omega)] at h
  cases h

theorem userId?_append (s t : Store) (l : List User) (h : t.userObjs = s.userObjs ++ l)
    (r : Nat) (hr : r < s.userObjs.length) : t.userId? r = s.userId? r := by
  unfold Store.userId?
  rw [h, List.getElem?_append_left hr]

theorem postId?_append (s t : Store) (l : List Post) (h : t.postObjs = s.postObjs ++ l)
    (r : Nat) (hr : r < s.postObjs.length) : t.postId? r = s.postId? r := by
  unfold Store.postId?
  rw [h, List.getElem?_append_left hr]

theorem userId?_set (s t : Store) (r : Nat) (u v : User) (hu : s.userObjs[r]? = some u)
    (hid : v.id = u.id) (h : t.userObjs = s.userObjs.set r v) : t.userId? = s.userId? := by
  funext x
  unfold Store.userId?
  rw [h, List.getElem?_set]
  split
  · rename_i hx
    subst hx
    have hlt : r < s.userObjs.length := by
      by_contra hn
      rw [List.getElem?_eq_none (by omega)] at hu
      cases hu
    simp [hlt, hu, hid]
  · rfl

theorem postId?_set (s t : Store) (r : Nat) (p q : Post) (hp : s.postObjs[r]? = some p)
    (hid : q.id = p.id) (h : t.postObjs = s.postObjs.set r q) : t.postId? = s.postId? := by
  funext x
  unfold Store.postId?
  rw [h, List.getElem?_set]
  split
  · rename_i hx
    subst hx
    have hlt : r < s.postObjs.length := by
      by_contra hn
      rw [List.getElem?_eq_none (by omega)] at hp
      cases hp
    simp [hlt, hp, hid]
  · rfl

theorem userId?_congr (s t : Store) (h : t.userObjs = s.userObjs) : t.userId? = s.userId? := by
  funext x
  unfold Store.userId?
  rw [h]

theorem postId?_congr (s t : Store) (h : t.postObjs = s.postObjs) : t.postId? = s.postId? := by
  funext x
  unfold Store.postId?
  rw [h]

theorem isSome_of_map_eq_idsBelow {α : Type} {f : α → Option String} {l : List α} {n : Nat}
    (h : l.map f = idsBelow n) {x : α} (hx : x ∈ l) : ∃ k, k < n ∧ f x = some (jsString k) := by
  have : f x ∈ idsBelow n := by
    rw [← h]
    exact List.mem_map_of_mem f hx
  exact mem_idsBelow.1 this

theorem Inv.user_live {s : Store} (h : Inv s) {r : Nat} (hr : r ∈ s.users) :
    r < s.userObjs.length := by
  obtain ⟨k, _, hk⟩ := isSome_of_map_eq_idsBelow h.userIds hr
  exact userId?_lt hk

theorem Inv.profile_live {s : Store} (h : Inv s) {p : Profile} (hp : p ∈ s.profiles) :
    p.user < s.userObjs.length := by
  obtain ⟨k, _, hk⟩ := isSome_of_map_eq_idsBelow h.profileUserIds hp
  exact userId?_lt hk

theorem Inv.post_live {s : Store} (h : Inv s) {r : Nat} (hr : r ∈ s.posts) :
    r < s.postObjs.length := by
  have hm : s.postId? r ∈ idsBelow s.postIdCounter :=
    h.postIds.subset (List.mem_map_of_mem _ hr)
  obtain ⟨k, _, hk⟩ := mem_idsBelow.1 hm
  exact postId?_lt hk

theorem findUser_mem {s : Store} {id : String} {r : Nat} (h : s.findUser id = some r) :
    r ∈ s.users ∧ s.userId? r = some id := by
  unfold Store.findUser at h
  have h1 := List.mem_of_find?_eq_some h
  have h2 := List.find?_some h
  exact ⟨h1, by simpa using h2⟩

theorem findPost_mem {s : Store} {id : String} {r : Nat} (h : s.findPost id = some r) :
    r ∈ s.posts ∧ s.postId? r = some id := by
  unfold Store.findPost at h
  have h1 := List.mem_of_find?_eq_some h
  have h2 := List.find?_some h
  exact ⟨h1, by simpa using h2⟩

/-- In a store that satisfies the invariant every id carried by a user object is the id
of a stored user, so `users.find` succeeds on it. -/
theorem Inv.findUser_of_obj {s : Store} (h : Inv s) {u : User} (hu : u ∈ s.userObjs) :
    ∃ r, s.findUser u.id = some r := by
  obtain ⟨k, hk, hid⟩ := h.userObjIds u hu
  have hm : some u.id ∈ s.userIds := by
    rw [h.userIds, hid]
    exact mem_idsBelow.2 ⟨k, hk, rfl⟩
  unfold Store.userIds at hm
  obtain ⟨r, hr, he⟩ := List.mem_map.1 hm
  have : (s.findUser u.id).isSome = true := by
    unfold Store.findUser
    rw [List.find?_isSome]
    exact ⟨r, hr, by simp [he]⟩
  exact Option.isSome_iff_exists.1 this

/-! ## The invariant holds in every reachable store -/

theorem mem_of_getElem? {α : Type} {l : List α} {i : Nat} {a : α} (h : l[i]? = some a) :
    a ∈ l :=
  List.mem_iff_getElem?.2 ⟨i, h⟩

theorem inv_empty : Inv Store.empty := by
  constructor <;> simp [Store.empty, Store.userIds, Store.profileUserIds, Store.profileIds,
    Store.postIds, idsBelow]

/-- Assigning to properties other than `id` of a user object keeps the invariant. -/
theorem inv_setUser {s : Store} (h : Inv s) {r : Nat} {u v : User}
    (hu : s.userObjs[r]? = some u) (hid : v.id = u.id) :
    Inv { s with userObjs := s.userObjs.set r v } := by
  have hU := userId?_set s { s with userObjs := s.userObjs.set r v } r u v hu hid rfl
  constructor
  · show List.map (Store.userId? _) s.users = _
    rw [hU]; exact h.userIds
  · show List.map (fun p => Store.userId? _ p.user) s.profiles = _
    rw [hU]; exact h.profileUserIds
  · exact h.profileIds
  · exact h.postIds
  · intro w hw
    rcases List.mem_or_eq_of_mem_set hw with hw | hw
    · exact h.userObjIds w hw
    · subst hw
      rw [hid]
      exact h.userObjIds u (mem_of_getElem? hu)
  · exact h.postObjIds
  · intro p hp
    obtain ⟨a, ha, hlt⟩ := h.authors p hp
    exact ⟨a, ha, by simpa using hlt⟩

/-- Assigning a stored user to `author` of a post object keeps the invariant. -/
theorem inv_setPost {s : Store} (h : Inv s) {r a : Nat} {p q : Post}
    (hp : s.postObjs[r]? = some p) (hid : q.id = p.id) (ha : q.author = some a)
    (hlt : a < s.userObjs.length) :
    Inv { s with postObjs := s.postObjs.set r q } := by
  have hP := postId?_set s { s with postObjs := s.postObjs.set r q } r p q hp hid rfl
  constructor
  · exact h.userIds
  · exact h.profileUserIds
  · exact h.profileIds
  · show (List.map (Store.postId? _) s.posts).Sublist _
    rw [hP]; exact h.postIds
  · exact h.userObjIds
  · intro w hw
    rcases List.mem_or_eq_of_mem_set hw with hw | hw
    · exact h.postObjIds w hw
    · subst hw
      rw [hid]
      exact h.postObjIds p (mem_of_getElem? hp)
  · intro w hw
    rcases List.mem_or_eq_of_mem_set hw with hw | hw
    · exact h.authors w hw
    · subst hw
      exact ⟨a, ha, hlt⟩

theorem inv_user {s : Store} (h : Inv s) (id : String) : Inv (user s id).2 := by
  unfold user
  split
  · exact h
  · split
    · exact h
    · rename_i hu
      split
      · exact h
      · exact inv_setUser h hu rfl

/-- In a store that satisfies the invariant, `users.find(u => u.id === post.author.id)`
returns a stored user for every post object. -/
theorem Inv.resolveAuthor {s : Store} (h : Inv s) {p : Post} (hp : p ∈ s.postObjs) :
    ∃ a aid, s.resolveAuthor p = .ok (some a) ∧ s.authorIdOf? p = some aid ∧
      a ∈ s.users ∧ s.userId? a = some aid := by
  obtain ⟨a0, ha0, hlt⟩ := h.authors p hp
  have hu0 : s.userObjs[a0]? = some s.userObjs[a0] := List.getElem?_eq_getElem hlt
  have hmem : s.userObjs[a0] ∈ s.userObjs := List.getElem_mem hlt
  obtain ⟨r, hr⟩ := h.findUser_of_obj hmem
  have haid : s.authorIdOf? p = some s.userObjs[a0].id := by
    simp [Store.authorIdOf?, ha0, Store.userId?, hu0]
  have hne : s.users ≠ [] := by
    intro he
    have := (findUser_mem hr).1
    rw [he] at this
    cases this
  refine ⟨r, s.userObjs[a0].id, ?_, haid, (findUser_mem hr).1, (findUser_mem hr).2⟩
  unfold Store.resolveAuthor
  split
  · rename_i he; exact absurd he hne
  · rw [haid]; simp [hr]

theorem inv_post {s : Store} (h : Inv s) (id : String) : Inv (post s id).2 := by
  unfold post
  split
  · exact h
  · split
    · exact h
    · rename_i p hp
      split
      · exact h
      · rename_i a ha
        obtain ⟨a1, aid, hres, _, hmem, _⟩ := h.resolveAuthor (mem_of_getElem? hp)
        rw [hres] at ha
        cases ha
        exact inv_setPost h hp rfl rfl (h.user_live hmem)

theorem inv_createUser {s : Store} (h : Inv s) (input : UserCreateInput) (now : Nat) :
    Inv (createUser s input now).2 := by
  unfold createUser
  simp only
  have hU : ∀ t : Store, ∀ l, t.userObjs = s.userObjs ++ l → ∀ r, r < s.userObjs.length →
      t.userId? r = s.userId? r := fun t l ht r hr => userId?_append s t l ht r hr
  constructor
  · simp only [Store.userIds, List.map_append, List.map_cons, List.map_nil, idsBelow_succ]
    congr 1
    · rw [← h.userIds]
      exact List.map_congr_left (fun r hr => hU _ _ rfl r (h.user_live hr))
    · simp [Store.userId?, newUser, newProfile]
  · simp only [Store.profileUserIds, List.map_append, List.map_cons, List.map_nil,
      idsBelow_succ]
    congr 1
    · rw [← h.profileUserIds]
      exact List.map_congr_left (fun p hp => hU _ _ rfl p.user (h.profile_live hp))
    · simp [Store.userId?, newUser, newProfile]
  · have := h.profileIds
    simp only [Store.profileIds] at this
    simp [Store.profileIds, List.range_succ, this, newProfile]
  · exact h.postIds
  · intro u hu
    simp only [List.mem_append, List.mem_singleton] at hu
    rcases hu with hu | hu
    · obtain ⟨k, hk, he⟩ := h.userObjIds u hu
      exact ⟨k, by simp only; omega, he⟩
    · subst hu
      exact ⟨s.userIdCounter, by simp only; omega, rfl⟩
  · exact h.postObjIds
  · intro p hp
    obtain ⟨a, ha, hlt⟩ := h.authors p hp
    exact ⟨a, ha, by simp only [List.length_append, List.length_singleton]; omega⟩

theorem inv_updateUser {s : Store} (h : Inv s) (id : String) (input : UserUpdateInput) :
    Inv (updateUser s id input).2 := by
  unfold updateUser
  split
  · exact h
  · rename_i i hi
    split
    · exact h
    · rename_i u hu
      obtain ⟨r, hr, hp, _⟩ := findIndex_eq_some hi
      have hur : s.userObjs[r]? = some u := by simpa [hr] using hu
      have hrl : r < s.userObjs.length := h.user_live (mem_of_getElem? hr)
      have hU : ∀ t : Store, ∀ l, t.userObjs = s.userObjs ++ l → ∀ x, x < s.userObjs.length →
          t.userId? x = s.userId? x := fun t l ht x hx => userId?_append s t l ht x hx
      constructor
      · show List.map (Store.userId? _) (s.users.set i s.userObjs.length) = _
        rw [← h.userIds]
        refine map_set_same _ _ _ _ _ r hr
          (fun y hy => hU _ _ rfl y (h.user_live hy)) ?_
        simp [Store.userId?, hur, User.merge]
      · show List.map (fun p => Store.userId? _ p.user) s.profiles = _
        rw [← h.profileUserIds]
        exact List.map_congr_left (fun p hp => hU _ _ rfl p.user (h.profile_live hp))
      · exact h.profileIds
      · exact h.postIds
      · intro v hv
        simp only [List.mem_append, List.mem_singleton] at hv
        rcases hv with hv | hv
        · exact h.userObjIds v hv
        · subst hv
          exact h.userObjIds u (mem_of_getElem? hur)
      · exact h.postObjIds
      · intro p hp
        obtain ⟨a, ha, hlt⟩ := h.authors p hp
        exact ⟨a, ha, by simp only [List.length_append, List.length_singleton]; omega⟩

theorem inv_addPost {s : Store} (h : Inv s) (input : PostCreateInput) (now1 now2 : Nat) :
    Inv (addPost s input now1 now2).2 := by
  unfold addPost
  split
  · exact h
  · rename_i a ha
    simp only
    have hP : ∀ t : Store, ∀ l, t.postObjs = s.postObjs ++ l → ∀ x, x < s.postObjs.length →
        t.postId? x = s.postId? x := fun t l ht x hx => postId?_append s t l ht x hx
    constructor
    · exact h.userIds
    · exact h.profileUserIds
    · exact h.profileIds
    · simp only [Store.postIds, List.map_append, List.map_cons, List.map_nil, idsBelow_succ]
      apply List.Sublist.append
      · convert h.postIds using 1
        exact List.map_congr_left (fun r hr => hP _ _ rfl r (h.post_live hr))
      · simp [Store.postId?, newPost]
    · exact h.userObjIds
    · intro p hp
      simp only [List.mem_append, List.mem_singleton] at hp
      rcases hp with hp | hp
      · obtain ⟨k, hk, he⟩ := h.postObjIds p hp
        exact ⟨k, by simp only; omega, he⟩
      · subst hp
        exact ⟨s.postIdCounter, by simp only; omega, rfl⟩
    · intro p hp
      simp only [List.mem_append, List.mem_singleton] at hp
      rcases hp with hp | hp
      · exact h.authors p hp
      · subst hp
        exact ⟨a, rfl, h.user_live (findUser_mem ha).1⟩

theorem inv_updatePost {s : Store} (h : Inv s) (id : String) (input : PostUpdateInput)
    (now : Nat) : Inv (updatePost s id input now).2 := by
  unfold updatePost
  split
  · exact h
  · rename_i i hi
    split
    · exact h
    · rename_i p hp
      obtain ⟨r, hr, _, _⟩ := findIndex_eq_some hi
      have hpr : s.postObjs[r]? = some p := by simpa [hr] using hp
      have hP : ∀ t : Store, ∀ l, t.postObjs = s.postObjs ++ l → ∀ x, x < s.postObjs.length →
          t.postId? x = s.postId? x := fun t l ht x hx => postId?_append s t l ht x hx
      constructor
      · exact h.userIds
      · exact h.profileUserIds
      · exact h.profileIds
      · show (List.map (Store.postId? _) (s.posts.set i s.postObjs.length)).Sublist _
        convert h.postIds using 1
        refine map_set_same _ _ _ _ _ r hr
          (fun y hy => hP _ _ rfl y (h.post_live hy)) ?_
        simp [Store.postId?, hpr, Post.merge]
      · exact h.userObjIds
      · intro q hq
        simp only [List.mem_append, List.mem_singleton] at hq
        rcases hq with hq | hq
        · exact h.postObjIds q hq
        · subst hq
          exact h.postObjIds p (mem_of_getElem? hpr)
      · intro q hq
        simp only [List.mem_append, List.mem_singleton] at hq
        rcases hq with hq | hq
        · exact h.authors q hq
        · subst hq
          exact h.authors p (mem_of_getElem? hpr)

theorem inv_deletePost {s : Store} (h : Inv s) (id : String) : Inv (deletePost s id).2 := by
  unfold deletePost
  split
  · exact h
  · rename_i i hi
    constructor
    · exact h.userIds
    · exact h.profileUserIds
    · exact h.profileIds
    · show (List.map s.postId? (s.posts.eraseIdx i)).Sublist _
      exact ((List.eraseIdx_sublist s.posts i).map _).trans h.postIds
    · exact h.userObjIds
    · exact h.postObjIds
    · exact h.authors

theorem inv_updateProfile {s : Store} (h : Inv s) (userId : String)
    (input : ProfileUpdateInput) : Inv (updateProfile s userId input).2 := by
  unfold updateProfile
  split
  · exact h
  · rename_i i hi
    split
    · exact h
    · rename_i p hp
      constructor
      · exact h.userIds
      · show List.map (fun q => s.userId? q.user) (s.profiles.set i (p.merge input)) = _
        rw [← h.profileUserIds]
        exact map_set_same _ _ _ _ _ p hp (fun _ _ => rfl) rfl
      · show List.map (fun q => q.id) (s.profiles.set i (p.merge input)) = _
        rw [← h.profileIds]
        exact map_set_same _ _ _ _ _ p hp (fun _ _ => rfl) rfl
      · exact h.postIds
      · exact h.userObjIds
      · exact h.postObjIds
      · exact h.authors

theorem inv_run {s : Store} (h : Inv s) (c : Call) : Inv (c.run s) := by
  cases c with
  | user id => exact inv_user h id
  | usersByName lower name => exact h
  | searchUsers lower filter => exact h
  | post id => exact inv_post h id
  | posts limit offset => exact h
  | userPosts userId => exact h
  | profile userId => exact h
  | createUser input now => exact inv_createUser h input now
  | updateUser id input => exact inv_updateUser h id input
  | addPost input now1 now2 => exact inv_addPost h input now1 now2
  | updatePost id input now => exact inv_updatePost h id input now
  | deletePost id => exact inv_deletePost h id
  | updateProfile userId input => exact inv_updateProfile h userId input

theorem Reachable.inv {s : Store} (h : Reachable s) : Inv s := by
  induction h with
  | init => exact inv_empty
  | step c _ ih => exact inv_run ih c

theorem ReachableAt.reachable {t : Nat} {s : Store} (h : ReachableAt t s) : Reachable s := by
  induction h with
  | init t => exact Reachable.init
  | step c _ _ ih => exact Reachable.step c ih
  | wait _ _ ih => exact ih


/-! ## Lookups that find nothing -/

theorem findUser_eq_none {s : Store} {id : String} (h : some id ∉ s.userIds) :
    s.findUser id = none := by
  unfold Store.findUser
  rw [List.find?_eq_none]
  intro r hr hp
  exact h (List.mem_map.2 ⟨r, hr, by simpa using hp⟩)

theorem findPost_eq_none {s : Store} {id : String} (h : some id ∉ s.postIds) :
    s.findPost id = none := by
  unfold Store.findPost
  rw [List.find?_eq_none]
  intro r hr hp
  exact h (List.mem_map.2 ⟨r, hr, by simpa using hp⟩)

theorem findProfile_eq_none {s : Store} {id : String} (h : some id ∉ s.profileUserIds) :
    s.findProfile id = none := by
  unfold Store.findProfile
  rw [List.find?_eq_none]
  intro p hp hq
  exact h (List.mem_map.2 ⟨p, hp, by simpa using hq⟩)

theorem findIndex_user_eq_none {s : Store} {id : String} (h : some id ∉ s.userIds) :
    findIndex (fun r => s.userId? r == some id) s.users = none := by
  rw [findIndex_eq_none]
  intro r hr
  by_contra hp
  exact h (List.mem_map.2 ⟨r, hr, by simpa using hp⟩)

theorem findIndex_post_eq_none {s : Store} {id : String} (h : some id ∉ s.postIds) :
    findIndex (fun r => s.postId? r == some id) s.posts = none := by
  rw [findIndex_eq_none]
  intro r hr
  by_contra hp
  exact h (List.mem_map.2 ⟨r, hr, by simpa using hp⟩)

theorem findIndex_profile_eq_none {s : Store} {id : String} (h : some id ∉ s.profileUserIds) :
    findIndex (fun p => s.userId? p.user == some id) s.profiles = none := by
  rw [findIndex_eq_none]
  intro p hp
  by_contra hq
  exact h (List.mem_map.2 ⟨p, hp, by simpa using hq⟩)

theorem findIndex_post_of_mem {s : Store} {id : String} (h : some id ∈ s.postIds) :
    ∃ i, findIndex (fun r => s.postId? r == some id) s.posts = some i := by
  obtain ⟨r, hr, he⟩ := List.mem_map.1 h
  exact findIndex_isSome_of_mem hr (by simp [he])

theorem findIndex_user_of_mem {s : Store} {id : String} (h : some id ∈ s.userIds) :
    ∃ i, findIndex (fun r => s.userId? r == some id) s.users = some i := by
  obtain ⟨r, hr, he⟩ := List.mem_map.1 h
  exact findIndex_isSome_of_mem hr (by simp [he])

theorem not_mem_map_eraseIdx {α β : Type} (f : α → β) (l : List α) (i : Nat) (x : α)
    (hx : l[i]? = some x) (hn : (l.map f).Nodup) : f x ∉ (l.eraseIdx i).map f := by
  intro hm
  obtain ⟨y, hy, he⟩ := List.mem_map.1 hm
  obtain ⟨j, hji, hj⟩ := List.mem_eraseIdx_iff_getElem?.1 hy
  have hi : i < (l.map f).length := by
    rw [List.length_map]
    exact (List.getElem?_eq_some_iff.1 hx).1
  have : (l.map f)[i]? = (l.map f)[j]? := by
    rw [List.getElem?_map, List.getElem?_map, hx, hj, Option.map_some', Option.map_some', he]
  exact hji (List.getElem?_inj hi hn this).symm

theorem Inv.postIds_nodup {s : Store} (h : Inv s) : s.postIds.Nodup :=
  h.postIds.nodup (idsBelow_nodup _)

theorem Inv.userIds_nodup {s : Store} (h : Inv s) : s.userIds.Nodup := by
  rw [h.userIds]; exact idsBelow_nodup _

/-! ## Deleting a post -/

/-- C1: in a reachable store, `deletePost(id)` on the id of a stored post returns `true`;
afterwards `post(id)` returns nothing, the `posts` array is one element shorter, and a
second `deletePost(id)` returns `false`. -/
theorem deletePost_then_post_absent (s : Store) (hs : Reachable s) (id : String)
    (hid : some id ∈ s.postIds) :
    (deletePost s id).1 = .ok true ∧
    (post (deletePost s id).2 id).1 = .ok none ∧
    (deletePost s id).2.posts.length + 1 = s.posts.length ∧
    (deletePost (deletePost s id).2 id).1 = .ok false ∧
    (deletePost (post (deletePost s id).2 id).2 id).1 = .ok false := by
  have hinv := hs.inv
  obtain ⟨i, hi⟩ := findIndex_post_of_mem hid
  obtain ⟨r, hr, hp, _⟩ := findIndex_eq_some hi
  have hilt : i < s.posts.length := (List.getElem?_eq_some_iff.1 hr).1
  have hrid : s.postId? r = some id := by simpa using hp
  have hdel : deletePost s id = (.ok true, { s with posts := s.posts.eraseIdx i }) := by
    unfold deletePost
    rw [hi]
  have hgone : some id ∉ Store.postIds { s with posts := s.posts.eraseIdx i } := by
    have := not_mem_map_eraseIdx s.postId? s.posts i r hr hinv.postIds_nodup
    rw [hrid] at this
    exact this
  have hpost : post { s with posts := s.posts.eraseIdx i } id
      = (.ok none, { s with posts := s.posts.eraseIdx i }) := by
    unfold post
    rw [findPost_eq_none hgone]
  have hdel2 : deletePost { s with posts := s.posts.eraseIdx i } id
      = (.ok false, { s with posts := s.posts.eraseIdx i }) := by
    unfold deletePost
    rw [findIndex_post_eq_none hgone]
  rw [hdel]
  simp only [hpost, hdel2, List.length_eraseIdx, hilt, if_true, true_and, and_true]
  omega

/-! ## `addPost` for an unknown author -/

/-- C2: when `authorId` is the id of no stored user, `addPost` throws and the store it
leaves is the store it found, so the posts, their number, the users, the profiles and
the post counter are what they were. -/
theorem addPost_unknown_author (s : Store) (input : PostCreateInput) (now1 now2 : Nat)
    (h : some input.authorId ∉ s.userIds) :
    (addPost s input now1 now2).1 = .error .authorNotFound ∧
    (addPost s input now1 now2).2 = s ∧
    (addPost s input now1 now2).2.posts.length = s.posts.length ∧
    (addPost s input now1 now2).2.postIdCounter = s.postIdCounter := by
  unfold addPost
  rw [findUser_eq_none h]
  exact ⟨rfl, rfl, rfl, rfl⟩

/-! ## The window of `posts` -/

theorem jsSlice_nat {α : Type} (xs : List α) (a b : Nat) :
    jsSlice xs (a : Int) ((a : Int) + (b : Int)) = (xs.drop a).take b := by
  unfold jsSlice
  have h1 : ¬ ((a : Int) < 0) := by omega
  have h2 : ¬ ((a : Int) + (b : Int) < 0) := by omega
  simp only [h1, h2, if_false]
  apply List.ext_getElem?
  intro j
  simp only [List.getElem?_take, List.getElem?_drop]
  by_cases hj : j < b
  · simp only [hj, if_true]
    split
    · rename_i hlt
      congr 1
      omega
    · rename_i hge
      symm
      apply List.getElem?_eq_none
      omega
  · simp only [hj, if_false]
    split
    · rename_i hlt
      apply List.getElem?_eq_none
      omega
    · rfl

theorem mapExcept_ok {α β : Type} (f : α → Except JsError β) (g : α → β) :
    ∀ l : List α, (∀ x ∈ l, f x = .ok (g x)) → mapExcept f l = .ok (l.map g) := by
  intro l
  induction l with
  | nil => intro _; rfl
  | cons x xs ih =>
    intro h
    unfold mapExcept
    rw [h x (List.mem_cons_self x xs), ih (fun y hy => h y (List.mem_cons_of_mem x hy))]
    rfl

theorem mapExcept_of_forall_ok {α β : Type} (f : α → Except JsError β) :
    ∀ l : List α, (∀ x ∈ l, ∃ y, f x = .ok y) →
      ∃ out : List β, mapExcept f l = .ok out ∧ out.length = l.length ∧
        ∀ (k : Nat) (x : α), l[k]? = some x → ∃ y, f x = .ok y ∧ out[k]? = some y := by
  intro l
  induction l with
  | nil =>
    intro _
    exact ⟨[], rfl, rfl, by intro k x hk; simp at hk⟩
  | cons x xs ih =>
    intro h
    obtain ⟨y, hy⟩ := h x (List.mem_cons_self x xs)
    obtain ⟨out, ho, hl, hk⟩ := ih (fun z hz => h z (List.mem_cons_of_mem x hz))
    refine ⟨y :: out, ?_, by simp [hl], ?_⟩
    · unfold mapExcept
      rw [hy, ho]
    · intro k z hz
      cases k with
      | zero =>
        simp only [List.getElem?_cons_zero, Option.some.injEq] at hz
        subst hz
        exact ⟨y, hy, by simp⟩
      | succ k =>
        simp only [List.getElem?_cons_succ] at hz
        simpa using hk k z hz

theorem withLiveAuthor_ok {s : Store} {r : Nat} (h : (s.authorId? r).isSome = true) :
    ∃ p a, s.postObjs[r]? = some p ∧ s.resolveAuthor p = .ok a ∧
      s.withLiveAuthor r = .ok { p with author := a } := by
  unfold Store.authorId? at h
  cases hp : s.postObjs[r]? with
  | none => rw [hp] at h; cases h
  | some p =>
    rw [hp] at h
    simp only [Option.some_bind] at h
    obtain ⟨aid, ha⟩ := Option.isSome_iff_exists.1 h
    have hres : ∃ a, s.resolveAuthor p = .ok a := by
      unfold Store.resolveAuthor
      split
      · exact ⟨none, rfl⟩
      · rw [ha]; exact ⟨_, rfl⟩
    obtain ⟨a, hra⟩ := hres
    refine ⟨p, a, rfl, hra, ?_⟩
    unfold Store.withLiveAuthor
    rw [hp]
    simp only [hra]

/-- C3: on a store whose posts have authors, `posts(limit, offset)` with non-negative
arguments returns without throwing, leaves the store as it is, and yields the posts at
positions `offset`, ..., `min(offset + limit, n) - 1` of the `posts` array in that
order, each with its author looked up again: `min(limit, n - offset)` of them, none
when `offset ≥ n`.  A missing `limit` counts as `10` and a missing `offset` as `0`. -/
theorem posts_window (s : Store) (hs : s.PostsHaveAuthors) (limit offset : Nat) :
    ∃ out : List Post,
      posts s (.val (limit : Int)) (.val (offset : Int)) = (.ok out, s) ∧
      out.length = min limit (s.posts.length - offset) ∧
      (∀ k, k < out.length → ∃ r p a, s.posts[offset + k]? = some r ∧
        s.postObjs[r]? = some p ∧ s.resolveAuthor p = .ok a ∧
        out[k]? = some { p with author := a }) ∧
      (∀ l o : Field Int, posts s .absent o = posts s (.val 10) o ∧
        posts s l .absent = posts s l (.val 0)) := by
  have hsub : ∀ x ∈ (s.posts.drop offset).take limit, x ∈ s.posts :=
    fun x hx => List.mem_of_mem_drop (List.mem_of_mem_take hx)
  obtain ⟨out, ho, hl, hk⟩ := mapExcept_of_forall_ok s.withLiveAuthor
    ((s.posts.drop offset).take limit)
    (fun x hx => by
      obtain ⟨p, a, _, _, h⟩ := withLiveAuthor_ok (hs x (hsub x hx))
      exact ⟨_, h⟩)
  have hlen : out.length = min limit (s.posts.length - offset) := by
    rw [hl, List.length_take, List.length_drop]
  refine ⟨out, ?_, hlen, ?_, fun l o => ⟨rfl, rfl⟩⟩
  · unfold posts
    simp only [argInt, jsSlice_nat, ho]
  · intro k hklt
    have hkl : k < limit := by omega
    have hkn : offset + k < s.posts.length := by omega
    have hget : ((s.posts.drop offset).take limit)[k]? = some s.posts[offset + k] := by
      rw [List.getElem?_take, if_pos hkl, List.getElem?_drop, List.getElem?_eq_getElem hkn]
    obtain ⟨y, hy, hout⟩ := hk k _ hget
    obtain ⟨p, a, hp, hra, hw⟩ := withLiveAuthor_ok (hs _ (List.getElem_mem hkn))
    rw [hw] at hy
    cases hy
    exact ⟨_, p, a, List.getElem?_eq_getElem hkn, hp, hra, hout⟩

theorem Inv.postsHaveAuthors {s : Store} (h : Inv s) : s.PostsHaveAuthors := by
  intro r hr
  have hlt := h.post_live hr
  have hp : s.postObjs[r]? = some s.postObjs[r] := List.getElem?_eq_getElem hlt
  obtain ⟨a, aid, _, haid, _, _⟩ := h.resolveAuthor (List.getElem_mem hlt)
  simp [Store.authorId?, hp, haid]

/-! ## `createUser` and the profile it creates -/

/-- C4: in a reachable store, `createUser(input)` returns a user object, and
`profile(userId)` with that user's id, called right afterwards, returns a profile whose
`bio`, `location` and `website` are the empty string, whose `followers` and `following`
are `0`, and whose `user` is the returned user object. -/
theorem createUser_then_profile (s : Store) (hs : Reachable s) (input : UserCreateInput)
    (now : Nat) :
    ∃ r u p, (createUser s input now).1 = .ok r ∧
      (createUser s input now).2.userObjs[r]? = some u ∧
      (profile (createUser s input now).2 u.id).1 = .ok (some p) ∧
      p.bio = .val "" ∧ p.location = .val "" ∧ p.website = .val "" ∧
      p.followers = 0 ∧ p.following = 0 ∧
      p.user = r ∧ (createUser s input now).2.userId? p.user = some u.id := by
  have hinv := hs.inv
  have hobj : (createUser s input now).2.userObjs[s.userObjs.length]?
      = some (newUser s input now) := by
    simp [createUser]
  refine ⟨s.userObjs.length, newUser s input now, newProfile s, rfl, hobj, ?_,
    rfl, rfl, rfl, rfl, rfl, rfl, ?_⟩
  · have hold : ∀ q ∈ s.profiles,
        ¬ ((createUser s input now).2.userId? q.user == some (jsString s.userIdCounter))
          = true := by
      intro q hq hc
      have hlive := hinv.profile_live hq
      have he : (createUser s input now).2.userId? q.user = s.userId? q.user :=
        userId?_append s _ _ rfl _ hlive
      rw [he] at hc
      have hm : s.userId? q.user ∈ s.profileUserIds :=
        List.mem_map.2 ⟨q, hq, rfl⟩
      rw [hinv.profileUserIds] at hm
      have hc2 : s.userId? q.user = some (jsString s.userIdCounter) := by simpa using hc
      rw [hc2] at hm
      exact jsString_not_mem_idsBelow _ hm
    have hprof : (createUser s input now).2.profiles = s.profiles ++ [newProfile s] := rfl
    have hnew : ((createUser s input now).2.userId? (newProfile s).user
        == some (jsString s.userIdCounter)) = true := by
      simp [Store.userId?, createUser, newProfile, newUser]
    unfold profile Store.findProfile
    simp only
    have hid : (newUser s input now).id = jsString s.userIdCounter := rfl
    rw [hprof, List.find?_append, hid, List.find?_eq_none.2 hold]
    simp only [List.find?, hnew, Option.or]
  · simp [Store.userId?, createUser, newProfile, newUser]

/-! ## Ids and counters -/

theorem counters_le_run (c : Call) (s : Store) :
    s.userIdCounter ≤ (c.run s).userIdCounter ∧
    s.postIdCounter ≤ (c.run s).postIdCounter ∧
    s.profileIdCounter ≤ (c.run s).profileIdCounter := by
  cases c with
  | user id => simp only [Call.run, user]; (repeat' split) <;> simp
  | usersByName lower name => simp [Call.run, usersByName]
  | searchUsers lower filter => simp [Call.run, searchUsers]
  | post id => simp only [Call.run, post]; (repeat' split) <;> simp
  | posts limit offset => simp [Call.run, posts]
  | userPosts userId => simp [Call.run, userPosts]
  | profile userId => simp [Call.run, profile]
  | createUser input now => simp [Call.run, createUser]
  | updateUser id input => simp only [Call.run, updateUser]; (repeat' split) <;> simp
  | addPost input now1 now2 => simp only [Call.run, addPost]; (repeat' split) <;> simp
  | updatePost id input now => simp only [Call.run, updatePost]; (repeat' split) <;> simp
  | deletePost id => simp only [Call.run, deletePost]; (repeat' split) <;> simp
  | updateProfile userId input =>
    simp only [Call.run, updateProfile]; (repeat' split) <;> simp

theorem counters_le_runAll (cs : List Call) :
    ∀ s : Store, s.userIdCounter ≤ (runAll cs s).userIdCounter ∧
      s.postIdCounter ≤ (runAll cs s).postIdCounter ∧
      s.profileIdCounter ≤ (runAll cs s).profileIdCounter := by
  induction cs with
  | nil => intro s; exact ⟨le_refl _, le_refl _, le_refl _⟩
  | cons c cs ih =>
    intro s
    have h1 := counters_le_run c s
    have h2 := ih (c.run s)
    simp only [runAll, List.foldl_cons] at h2 ⊢
    omega

theorem reachable_runAll (cs : List Call) :
    ∀ s : Store, Reachable s → Reachable (runAll cs s) := by
  induction cs with
  | nil => intro s h; exact h
  | cons c cs ih => intro s h; exact ih (c.run s) (Reachable.step c h)

theorem addPost_ok_id {s : Store} {input : PostCreateInput} {now1 now2 r : Nat} {q : Post}
    (h : (addPost s input now1 now2).1 = .ok r)
    (hq : (addPost s input now1 now2).2.postObjs[r]? = some q) :
    q.id = jsString s.postIdCounter := by
  unfold addPost at h hq
  cases hf : s.findUser input.authorId with
  | none => rw [hf] at h; cases h
  | some a =>
    rw [hf] at h hq
    cases h
    simp only [List.getElem?_concat_length, Option.some.injEq] at hq
    rw [← hq]
    rfl

/-- C5: in a reachable store the ids of the stored users are pairwise distinct, and so
are those of the stored profiles and of the stored posts; every stored id, and the id of
every post object ever created, is `String(k)` for a `k` below the counter of its
collection; no call lowers a counter; and whatever calls follow, a later `addPost`
never hands out an id that a post of this store carries, deleted meanwhile or not. -/
theorem ids_unique_never_reused (s : Store) (hs : Reachable s) :
    s.userIds.Nodup ∧ s.profileIds.Nodup ∧ s.postIds.Nodup ∧
    (∀ x ∈ s.userIds, ∃ k, k < s.userIdCounter ∧ x = some (jsString k)) ∧
    (∀ x ∈ s.profileIds, ∃ k, k < s.profileIdCounter ∧ x = jsString k) ∧
    (∀ x ∈ s.postIds, ∃ k, k < s.postIdCounter ∧ x = some (jsString k)) ∧
    (∀ p ∈ s.postObjs, ∃ k, k < s.postIdCounter ∧ p.id = jsString k) ∧
    (∀ c : Call, s.userIdCounter ≤ (c.run s).userIdCounter ∧
      s.postIdCounter ≤ (c.run s).postIdCounter ∧
      s.profileIdCounter ≤ (c.run s).profileIdCounter) ∧
    (∀ (cs : List Call) (input : PostCreateInput) (now1 now2 r : Nat) (q : Post),
      (addPost (runAll cs s) input now1 now2).1 = .ok r →
      (addPost (runAll cs s) input now1 now2).2.postObjs[r]? = some q →
      some q.id ∉ s.postIds ∧ ∀ p ∈ s.postObjs, p.id ≠ q.id) := by
  have h := hs.inv
  have hposts : ∀ x ∈ s.postIds, ∃ k, k < s.postIdCounter ∧ x = some (jsString k) :=
    fun x hx => mem_idsBelow.1 (h.postIds.subset hx)
  refine ⟨h.userIds_nodup, ?_, h.postIds_nodup, ?_, ?_, hposts, h.postObjIds,
    fun c => counters_le_run c s, ?_⟩
  · rw [h.profileIds]
    exact List.Nodup.map jsString_injective (List.nodup_range _)
  · intro x hx
    rw [h.userIds] at hx
    exact mem_idsBelow.1 hx
  · intro x hx
    rw [h.profileIds] at hx
    obtain ⟨k, hk, he⟩ := List.mem_map.1 hx
    exact ⟨k, List.mem_range.1 hk, he.symm⟩
  · intro cs input now1 now2 r q hr hq
    have hid := addPost_ok_id hr hq
    have hmono := (counters_le_runAll cs s).2.1
    constructor
    · intro hm
      obtain ⟨k, hk, he⟩ := hposts _ hm
      rw [hid] at he
      have := jsString_injective (Option.some.inj he)
      omega
    · intro p hp he
      obtain ⟨k, hk, hpk⟩ := h.postObjIds p hp
      rw [hid, hpk] at he
      have := jsString_injective he
      omega

theorem length_filter_eq_one {α β : Type} [DecidableEq β] (f : α → β) :
    ∀ l : List α, (l.map f).Nodup → ∀ b ∈ l.map f,
      (l.filter (fun x => decide (f x = b))).length = 1 := by
  intro l
  induction l with
  | nil => intro _ b hb; simp at hb
  | cons x xs ih =>
    intro hn b hb
    rw [List.map_cons, List.nodup_cons] at hn
    by_cases hx : f x = b
    · have hnil : xs.filter (fun y => decide (f y = b)) = [] := by
        rw [List.filter_eq_nil_iff]
        intro y hy hc
        have : f y = b := by simpa using hc
        exact hn.1 (hx ▸ this ▸ List.mem_map_of_mem f hy)
      simp [List.filter, hx, hnil]
    · have hb2 : b ∈ xs.map f := by
        rw [List.map_cons, List.mem_cons] at hb
        rcases hb with hb | hb
        · exact absurd hb.symm hx
        · exact hb
      simp [List.filter, hx, ih hn.2 b hb2]

theorem idsBelow_initial {m n : Nat} (h : m ≤ n) : idsBelow m <+: idsBelow n := by
  obtain ⟨d, rfl⟩ := Nat.exists_eq_add_of_le h
  unfold idsBelow
  rw [List.range_add, List.map_append]
  exact List.prefix_append _ _

theorem range_map_initial {m n : Nat} (h : m ≤ n) :
    (List.range m).map jsString <+: (List.range n).map jsString := by
  obtain ⟨d, rfl⟩ := Nat.exists_eq_add_of_le h
  rw [List.range_add, List.map_append]
  exact List.prefix_append _ _

/-- C6: in a reachable store every stored user has exactly one stored profile whose
`user.id` is that user's id, every stored profile's `user.id` is the id of a stored
user, and no call removes a user or a profile: the ids of the users, and the ids and
the `user.id`s of the profiles, before a call are an initial segment of those after. -/
theorem one_profile_per_user (s : Store) (hs : Reachable s) :
    (∀ r ∈ s.users,
      (s.profiles.filter (fun p => decide (s.userId? p.user = s.userId? r))).length = 1) ∧
    (∀ p ∈ s.profiles, ∃ r ∈ s.users, s.userId? r = s.userId? p.user ∧
      ∃ id, s.userId? r = some id) ∧
    (∀ c : Call, s.userIds <+: (c.run s).userIds ∧
      s.profileIds <+: (c.run s).profileIds ∧
      s.profileUserIds <+: (c.run s).profileUserIds) := by
  have h := hs.inv
  refine ⟨?_, ?_, ?_⟩
  · intro r hr
    have hm : s.userId? r ∈ s.profileUserIds := by
      rw [h.profileUserIds, ← h.userIds]
      exact List.mem_map_of_mem _ hr
    have hn : s.profileUserIds.Nodup := by
      rw [h.profileUserIds]; exact idsBelow_nodup _
    exact length_filter_eq_one (fun p : Profile => s.userId? p.user) s.profiles hn _ hm
  · intro p hp
    have hm : s.userId? p.user ∈ s.userIds := by
      rw [h.userIds, ← h.profileUserIds]
      exact List.mem_map.2 ⟨p, hp, rfl⟩
    obtain ⟨r, hr, he⟩ := List.mem_map.1 hm
    obtain ⟨k, _, hk⟩ := isSome_of_map_eq_idsBelow h.userIds hr
    exact ⟨r, hr, he, _, hk⟩
  · intro c
    have h2 := inv_run h c
    have hc := counters_le_run c s
    refine ⟨?_, ?_, ?_⟩
    · rw [h.userIds, h2.userIds]; exact idsBelow_initial hc.1
    · rw [h.profileIds, h2.profileIds]; exact range_map_initial hc.2.2
    · rw [h.profileUserIds, h2.profileUserIds]; exact idsBelow_initial hc.1


/-! ## `updatePost` -/

theorem updatedAt_le_run {t : Nat} {s : Store} (c : Call) (hc : c.clockFrom t)
    (h : ∀ p ∈ s.postObjs, p.updatedAt ≤ t) :
    ∀ p ∈ (c.run s).postObjs, p.updatedAt ≤ c.clockAfter t := by
  cases c with
  | user id =>
    simp only [Call.run, user, Call.clockAfter]
    (repeat' split) <;> exact h
  | usersByName lower name => exact h
  | searchUsers lower filter => exact h
  | post id =>
    simp only [Call.run, post, Call.clockAfter]
    repeat' split
    · exact h
    · exact h
    · exact h
    · rename_i p hp _ a _
      intro q hq
      rcases List.mem_or_eq_of_mem_set hq with hq | hq
      · exact h q hq
      · subst hq
        exact h p (mem_of_getElem? hp)
  | posts limit offset => exact h
  | userPosts userId => exact h
  | profile userId => exact h
  | createUser input now =>
    simp only [Call.clockFrom] at hc
    intro p hp
    exact le_trans (h p hp) hc
  | updateUser id input =>
    simp only [Call.run, updateUser, Call.clockAfter]
    (repeat' split) <;> exact h
  | addPost input now1 now2 =>
    simp only [Call.clockFrom] at hc
    simp only [Call.run, addPost, Call.clockAfter]
    split
    · intro p hp
      exact le_trans (h p hp) (le_trans hc.1 hc.2)
    · intro p hp
      simp only [List.mem_append, List.mem_singleton] at hp
      rcases hp with hp | hp
      · exact le_trans (h p hp) (le_trans hc.1 hc.2)
      · subst hp
        exact le_refl _
  | updatePost id input now =>
    simp only [Call.clockFrom] at hc
    simp only [Call.run, updatePost, Call.clockAfter]
    repeat' split
    · intro p hp
      exact le_trans (h p hp) hc
    · intro p hp
      exact le_trans (h p hp) hc
    · intro p hp
      simp only [List.mem_append, List.mem_singleton] at hp
      rcases hp with hp | hp
      · exact le_trans (h p hp) hc
      · subst hp
        exact le_refl _
  | deletePost id =>
    simp only [Call.run, deletePost, Call.clockAfter]
    (repeat' split) <;> exact h
  | updateProfile userId input =>
    simp only [Call.run, updateProfile, Call.clockAfter]
    (repeat' split) <;> exact h

/-- Under a clock that never goes backwards no post object carries an `updatedAt` later
than the latest reading. -/
theorem ReachableAt.updatedAt_le {t : Nat} {s : Store} (h : ReachableAt t s) :
    ∀ p ∈ s.postObjs, p.updatedAt ≤ t := by
  induction h with
  | init t => intro p hp; simp [Store.empty] at hp
  | step c _ hc ih => exact updatedAt_le_run c hc ih
  | wait _ hle ih => intro p hp; exact le_trans (ih p hp) hle

/-- C7: in a store reached under a clock that never goes backwards, `updatePost(id,
input)` on the id of a stored post, at a reading `now` not before the earlier ones,
returns the post object it stores at the position of the old one; that object has the
old `createdAt`, `id`, `author`, `likes` and `comments`, and an `updatedAt` (the
reading `now`) not before the old `updatedAt`. -/
theorem updatePost_keeps_createdAt (t : Nat) (s : Store) (hs : ReachableAt t s)
    (id : String) (input : PostUpdateInput) (now : Nat) (hnow : t ≤ now)
    (hid : some id ∈ s.postIds) :
    ∃ (i r : Nat) (p : Post) (r2 : Nat) (q : Post), s.posts[i]? = some r ∧ s.postObjs[r]? = some p ∧ p.id = id ∧
      (updatePost s id input now).1 = .ok (some r2) ∧
      (updatePost s id input now).2.posts[i]? = some r2 ∧
      (updatePost s id input now).2.postObjs[r2]? = some q ∧
      q.createdAt = p.createdAt ∧ q.id = p.id ∧ q.author = p.author ∧
      q.likes = p.likes ∧ q.comments = p.comments ∧
      p.updatedAt ≤ q.updatedAt ∧ q.updatedAt = now := by
  have hinv := hs.reachable.inv
  obtain ⟨i, hi⟩ := findIndex_post_of_mem hid
  obtain ⟨r, hr, hp, _⟩ := findIndex_eq_some hi
  have hilt : i < s.posts.length := (List.getElem?_eq_some_iff.1 hr).1
  have hrl := hinv.post_live (mem_of_getElem? hr)
  have hpr : s.postObjs[r]? = some s.postObjs[r] := List.getElem?_eq_getElem hrl
  have hpid : s.postObjs[r].id = id := by
    have : s.postId? r = some id := by simpa using hp
    simpa [Store.postId?, hpr] using this
  have hbind : (s.posts[i]?).bind (fun r => s.postObjs[r]?) = some s.postObjs[r] := by
    rw [hr]; exact hpr
  have hupd : updatePost s id input now = (.ok (some s.postObjs.length),
      { s with postObjs := s.postObjs ++ [s.postObjs[r].merge input now],
               posts := s.posts.set i s.postObjs.length }) := by
    unfold updatePost
    rw [hi]
    simp only [hbind]
  refine ⟨i, r, s.postObjs[r], s.postObjs.length, s.postObjs[r].merge input now, hr, hpr,
    hpid, ?_, ?_, ?_, rfl, rfl, rfl, rfl, rfl, ?_, rfl⟩
  · rw [hupd]
  · rw [hupd]
    simp [List.getElem?_set, hilt]
  · rw [hupd]
    simp
  · exact le_trans (hs.updatedAt_le _ (List.getElem_mem hrl)) hnow

/-! ## `updateUser` -/

/-- C8: `updateUser(id, input)` on the id of a stored user returns the user object it
stores at the position of the first user with that id.  In that object every property
the input carries (`null` included) has the input's value and every other property has
its old value; `id` and `dateJoined` are among the latter.  The other positions of
`users`, its length, every user object that existed, the profiles, the posts and the
counters are untouched. -/
theorem updateUser_merges (s : Store) (id : String) (input : UserUpdateInput)
    (hid : some id ∈ s.userIds) :
    ∃ (i r : Nat) (u : User) (r2 : Nat) (v : User),
      s.users[i]? = some r ∧ s.userObjs[r]? = some u ∧ u.id = id ∧
      (∀ j y, j < i → s.users[j]? = some y → s.userId? y ≠ some id) ∧
      (updateUser s id input).1 = .ok (some r2) ∧
      (updateUser s id input).2.users[i]? = some r2 ∧
      (updateUser s id input).2.userObjs[r2]? = some v ∧
      (input.email = .absent → v.email = u.email) ∧
      (input.email ≠ .absent → v.email = input.email) ∧
      (input.firstName = .absent → v.firstName = u.firstName) ∧
      (input.firstName ≠ .absent → v.firstName = input.firstName) ∧
      (input.lastName = .absent → v.lastName = u.lastName) ∧
      (input.lastName ≠ .absent → v.lastName = input.lastName) ∧
      v.id = u.id ∧ v.dateJoined = u.dateJoined ∧ v.username = u.username ∧
      v.password = u.password ∧ v.posts = u.posts ∧ v.profile = u.profile ∧
      (∀ j, j ≠ i → (updateUser s id input).2.users[j]? = s.users[j]?) ∧
      (updateUser s id input).2.users.length = s.users.length ∧
      (∀ x, x < s.userObjs.length →
        (updateUser s id input).2.userObjs[x]? = s.userObjs[x]?) ∧
      (updateUser s id input).2.profiles = s.profiles ∧
      (updateUser s id input).2.posts = s.posts ∧
      (updateUser s id input).2.postObjs = s.postObjs ∧
      (updateUser s id input).2.userIdCounter = s.userIdCounter ∧
      (updateUser s id input).2.postIdCounter = s.postIdCounter ∧
      (updateUser s id input).2.profileIdCounter = s.profileIdCounter := by
  obtain ⟨i, hi⟩ := findIndex_user_of_mem hid
  obtain ⟨r, hr, hp, hfirst⟩ := findIndex_eq_some hi
  have hrid : s.userId? r = some id := by simpa using hp
  have hrl := userId?_lt hrid
  have hur : s.userObjs[r]? = some s.userObjs[r] := List.getElem?_eq_getElem hrl
  have huid : s.userObjs[r].id = id := by
    simpa [Store.userId?, hur] using hrid
  have hilt : i < s.users.length := (List.getElem?_eq_some_iff.1 hr).1
  have hbind : (s.users[i]?).bind (fun r => s.userObjs[r]?) = some s.userObjs[r] := by
    rw [hr]; exact hur
  have hupd : updateUser s id input = (.ok (some s.userObjs.length),
      { s with userObjs := s.userObjs ++ [s.userObjs[r].merge input],
               users := s.users.set i s.userObjs.length }) := by
    unfold updateUser
    rw [hi]
    simp only [hbind]
  rw [hupd]
  refine ⟨i, r, s.userObjs[r], s.userObjs.length, s.userObjs[r].merge input, hr, hur, huid,
    ?_, rfl, ?_, ?_, ?_, ?_, ?_, ?_, ?_, ?_, rfl, rfl, rfl, rfl, rfl, rfl, ?_, ?_, ?_,
    rfl, rfl, rfl, rfl, rfl, rfl⟩
  · intro j y hj hy hc
    have := hfirst j y hj hy
    simp [hc] at this
  · simp [List.getElem?_set, hilt]
  · simp
  · intro h; simp [User.merge, Field.merge, h]
  · intro h; cases he : input.email <;> simp_all [User.merge, Field.merge]
  · intro h; simp [User.merge, Field.merge, h]
  · intro h; cases he : input.firstName <;> simp_all [User.merge, Field.merge]
  · intro h; simp [User.merge, Field.merge, h]
  · intro h; cases he : input.lastName <;> simp_all [User.merge, Field.merge]
  · intro j hj
    simp only [List.getElem?_set]
    rw [if_neg (fun h => hj h.symm)]
  · simp
  · intro x hx
    exact List.getElem?_append_left hx

/-! ## Lookups that miss -/

/-- C9: for ids that match no stored record, `user`, `post`, `profile`, `updateUser`,
`updatePost` and `updateProfile` return nothing and `deletePost` returns `false`, none
of them throws, and each leaves the store exactly as it found it. -/
theorem soft_miss (s : Store) (uid pid fk : String) (uin : UserUpdateInput)
    (pin : PostUpdateInput) (now : Nat) (prin : ProfileUpdateInput)
    (hu : some uid ∉ s.userIds) (hp : some pid ∉ s.postIds)
    (hf : some fk ∉ s.profileUserIds) :
    user s uid = (.ok none, s) ∧
    updateUser s uid uin = (.ok none, s) ∧
    post s pid = (.ok none, s) ∧
    updatePost s pid pin now = (.ok none, s) ∧
    deletePost s pid = (.ok false, s) ∧
    profile s fk = (.ok none, s) ∧
    updateProfile s fk prin = (.ok none, s) := by
  refine ⟨?_, ?_, ?_, ?_, ?_, ?_, ?_⟩
  · unfold user; rw [findUser_eq_none hu]
  · unfold updateUser; rw [findIndex_user_eq_none hu]
  · unfold post; rw [findPost_eq_none hp]
  · unfold updatePost; rw [findIndex_post_eq_none hp]
  · unfold deletePost; rw [findIndex_post_eq_none hp]
  · unfold profile; rw [findProfile_eq_none hf]
  · unfold updateProfile; rw [findIndex_profile_eq_none hf]

/-! ## Queries and the store -/

/-- The queries `usersByName`, `searchUsers`, `posts`, `userPosts` and `profile` leave
the store exactly as they found it, whether they return or throw. -/
theorem pure_queries_keep_store (s : Store) (lower : String → String) (name : String)
    (filter : Field UserSearchInput) (limit offset : Field Int) (userId : String) :
    (usersByName lower s name).2 = s ∧ (searchUsers lower s filter).2 = s ∧
    (posts s limit offset).2 = s ∧ (userPosts s userId).2 = s ∧
    (profile s userId).2 = s :=
  ⟨rfl, rfl, rfl, rfl, rfl⟩

/-- What `user` and `post` leave alone: the three arrays, the profiles, the counters,
the heap the query does not write to, and the size of the heap it writes to. -/
theorem user_post_keep_arrays (s : Store) (id : String) :
    ((user s id).2.users = s.users ∧ (user s id).2.profiles = s.profiles ∧
      (user s id).2.posts = s.posts ∧ (user s id).2.postObjs = s.postObjs ∧
      (user s id).2.userObjs.length = s.userObjs.length ∧
      (user s id).2.userIdCounter = s.userIdCounter ∧
      (user s id).2.postIdCounter = s.postIdCounter ∧
      (user s id).2.profileIdCounter = s.profileIdCounter) ∧
    ((post s id).2.users = s.users ∧ (post s id).2.profiles = s.profiles ∧
      (post s id).2.posts = s.posts ∧ (post s id).2.userObjs = s.userObjs ∧
      (post s id).2.postObjs.length = s.postObjs.length ∧
      (post s id).2.userIdCounter = s.userIdCounter ∧
      (post s id).2.postIdCounter = s.postIdCounter ∧
      (post s id).2.profileIdCounter = s.profileIdCounter) := by
  constructor
  · unfold user
    (repeat' split) <;> simp
  · unfold post
    (repeat' split) <;> simp

/-- C10 fails on the code: right after `createUser`, the query `user("0")` assigns the
computed `posts` and `profile` to the stored user object, which had neither; and after
`createUser`, `addPost` and `updateUser`, the query `post("0")` replaces the stored
post's `author` (the user object at address `0`) by the current one (address `1`). -/
theorem user_and_post_write_stored_records :
    (user storeOneUser "0").1 = .ok (some 0) ∧
    (storeOneUser.userObjs[0]?).map (fun u => (u.posts, u.profile)) = some (none, none) ∧
    ((user storeOneUser "0").2.userObjs[0]?).map (fun u => (u.posts, u.profile.isSome))
      = some (some [], true) ∧
    (user storeOneUser "0").2 ≠ storeOneUser ∧
    (post storeStaleAuthor "0").1 = .ok (some 0) ∧
    storeStaleAuthor.posts = [0] ∧
    (storeStaleAuthor.postObjs[0]?).map (fun p => p.author) = some (some 0) ∧
    ((post storeStaleAuthor "0").2.postObjs[0]?).map (fun p => p.author) = some (some 1) ∧
    (post storeStaleAuthor "0").2 ≠ storeStaleAuthor := by
  decide

/-! ## The concrete stores are reachable -/

theorem reachable_storeOneUser : Reachable storeOneUser :=
  reachable_runAll _ _ Reachable.init

theorem reachable_storeOnePost : Reachable storeOnePost :=
  reachable_runAll _ _ reachable_storeOneUser

theorem reachable_storeFivePosts : Reachable storeFivePosts :=
  reachable_runAll _ _ reachable_storeOneUser

theorem reachableAt_storeOnePost : ReachableAt 2000 storeOnePost :=
  ReachableAt.step (.addPost (postInput "T") 2000 2000)
    (ReachableAt.step (.createUser alInput 1000) (ReachableAt.init 0)
      (by simp [Call.clockFrom]))
    (by simp [Call.clockFrom, Call.clockAfter])

/-! ## Instances on concrete stores -/

theorem deletePost_then_post_absent_witness :
    Reachable storeOnePost ∧ some "0" ∈ storeOnePost.postIds ∧
    ((deletePost storeOnePost "0").1 = .ok true ∧
    (post (deletePost storeOnePost "0").2 "0").1 = .ok none ∧
    (deletePost storeOnePost "0").2.posts.length + 1 = storeOnePost.posts.length ∧
    (deletePost (deletePost storeOnePost "0").2 "0").1 = .ok false ∧
    (deletePost (post (deletePost storeOnePost "0").2 "0").2 "0").1 = .ok false) :=
  ⟨reachable_storeOnePost, by decide,
    deletePost_then_post_absent storeOnePost reachable_storeOnePost "0" (by decide)⟩

theorem addPost_unknown_author_witness :
    some (PostCreateInput.mk (.val "T") "hi" "nonexistent").authorId ∉ storeOnePost.userIds ∧
    ((addPost storeOnePost (PostCreateInput.mk (.val "T") "hi" "nonexistent") 3000 3000).1
      = .error .authorNotFound ∧
    (addPost storeOnePost (PostCreateInput.mk (.val "T") "hi" "nonexistent") 3000 3000).2
      = storeOnePost ∧
    (addPost storeOnePost (PostCreateInput.mk (.val "T") "hi" "nonexistent") 3000
      3000).2.posts.length = storeOnePost.posts.length ∧
    (addPost storeOnePost (PostCreateInput.mk (.val "T") "hi" "nonexistent") 3000
      3000).2.postIdCounter = storeOnePost.postIdCounter) :=
  ⟨by decide,
    addPost_unknown_author storeOnePost (PostCreateInput.mk (.val "T") "hi" "nonexistent")
      3000 3000 (by decide)⟩

theorem posts_window_witness :
    storeFivePosts.PostsHaveAuthors ∧
    ((posts storeFivePosts (.val 2) (.val 1)).1.toOption.map (List.map (fun p => p.id))
      = some ["1", "2"]) ∧
    (∃ out : List Post,
      posts storeFivePosts (.val ((2 : Nat) : Int)) (.val ((1 : Nat) : Int))
        = (.ok out, storeFivePosts) ∧
      out.length = min 2 (storeFivePosts.posts.length - 1) ∧
      (∀ k, k < out.length → ∃ r p a, storeFivePosts.posts[1 + k]? = some r ∧
        storeFivePosts.postObjs[r]? = some p ∧ storeFivePosts.resolveAuthor p = .ok a ∧
        out[k]? = some { p with author := a }) ∧
      (∀ l o : Field Int, posts storeFivePosts .absent o = posts storeFivePosts (.val 10) o ∧
        posts storeFivePosts l .absent = posts storeFivePosts l (.val 0))) :=
  ⟨by decide, by decide, posts_window storeFivePosts (by decide) 2 1⟩

theorem createUser_then_profile_witness :
    Reachable storeOnePost ∧
    ∃ r u p, (createUser storeOnePost alInput 3000).1 = .ok r ∧
      (createUser storeOnePost alInput 3000).2.userObjs[r]? = some u ∧
      (profile (createUser storeOnePost alInput 3000).2 u.id).1 = .ok (some p) ∧
      p.bio = .val "" ∧ p.location = .val "" ∧ p.website = .val "" ∧
      p.followers = 0 ∧ p.following = 0 ∧
      p.user = r ∧ (createUser storeOnePost alInput 3000).2.userId? p.user = some u.id :=
  ⟨reachable_storeOnePost,
    createUser_then_profile storeOnePost reachable_storeOnePost alInput 3000⟩

theorem ids_unique_never_reused_witness :
    Reachable storeFivePosts ∧
    storeFivePosts.userIds.Nodup ∧ storeFivePosts.profileIds.Nodup ∧
    storeFivePosts.postIds.Nodup ∧
    (∀ x ∈ storeFivePosts.postIds, ∃ k, k < storeFivePosts.postIdCounter ∧
      x = some (jsString k)) :=
  ⟨reachable_storeFivePosts,
    (ids_unique_never_reused storeFivePosts reachable_storeFivePosts).1,
    (ids_unique_never_reused storeFivePosts reachable_storeFivePosts).2.1,
    (ids_unique_never_reused storeFivePosts reachable_storeFivePosts).2.2.1,
    (ids_unique_never_reused storeFivePosts reachable_storeFivePosts).2.2.2.2.2.1⟩

theorem one_profile_per_user_witness :
    Reachable storeStaleAuthor ∧
    (∀ r ∈ storeStaleAuthor.users,
      (storeStaleAuthor.profiles.filter
        (fun p => decide (storeStaleAuthor.userId? p.user = storeStaleAuthor.userId? r))).length
        = 1) ∧
    (∀ p ∈ storeStaleAuthor.profiles, ∃ r ∈ storeStaleAuthor.users,
      storeStaleAuthor.userId? r = storeStaleAuthor.userId? p.user ∧
      ∃ id, storeStaleAuthor.userId? r = some id) :=
  ⟨reachable_runAll _ _ reachable_storeOnePost,
    (one_profile_per_user storeStaleAuthor (reachable_runAll _ _ reachable_storeOnePost)).1,
    (one_profile_per_user storeStaleAuthor (reachable_runAll _ _ reachable_storeOnePost)).2.1⟩

theorem updatePost_keeps_createdAt_witness :
    ReachableAt 2000 storeOnePost ∧ 2000 ≤ 2500 ∧ some "0" ∈ storeOnePost.postIds ∧
    ∃ (i r : Nat) (p : Post) (r2 : Nat) (q : Post),
      storeOnePost.posts[i]? = some r ∧ storeOnePost.postObjs[r]? = some p ∧ p.id = "0" ∧
      (updatePost storeOnePost "0" (PostUpdateInput.mk (.val "U") .absent) 2500).1
        = .ok (some r2) ∧
      (updatePost storeOnePost "0" (PostUpdateInput.mk (.val "U") .absent) 2500).2.posts[i]?
        = some r2 ∧
      (updatePost storeOnePost "0" (PostUpdateInput.mk (.val "U") .absent)
        2500).2.postObjs[r2]? = some q ∧
      q.createdAt = p.createdAt ∧ q.id = p.id ∧ q.author = p.author ∧
      q.likes = p.likes ∧ q.comments = p.comments ∧
      p.updatedAt ≤ q.updatedAt ∧ q.updatedAt = 2500 :=
  ⟨reachableAt_storeOnePost, by decide, by decide,
    updatePost_keeps_createdAt 2000 storeOnePost reachableAt_storeOnePost "0"
      (PostUpdateInput.mk (.val "U") .absent) 2500 (by decide) (by decide)⟩

theorem updateUser_merges_witness :
    some "0" ∈ storeOnePost.userIds ∧
    ∃ (i r : Nat) (u : User) (r2 : Nat) (v : User),
      storeOnePost.users[i]? = some r ∧ storeOnePost.userObjs[r]? = some u ∧ u.id = "0" ∧
      (updateUser storeOnePost "0" alUpdate).1 = .ok (some r2) ∧
      (updateUser storeOnePost "0" alUpdate).2.users[i]? = some r2 ∧
      (updateUser storeOnePost "0" alUpdate).2.userObjs[r2]? = some v ∧
      v.email = alUpdate.email ∧ v.firstName = u.firstName ∧ v.lastName = .null ∧
      v.id = u.id ∧ v.dateJoined = u.dateJoined ∧
      (updateUser storeOnePost "0" alUpdate).2.profiles = storeOnePost.profiles ∧
      (updateUser storeOnePost "0" alUpdate).2.posts = storeOnePost.posts := by
  refine ⟨by decide, ?_⟩
  obtain ⟨i, r, u, r2, v, h1, h2, h3, _, h5, h6, h7, _, h9, h10, _, _, h13, h14, h15, _, _,
    _, _, _, _, _, h23, h24, _⟩ := updateUser_merges storeOnePost "0" alUpdate (by decide)
  exact ⟨i, r, u, r2, v, h1, h2, h3, h5, h6, h7, h9 (by decide), h10 rfl,
    h13 (by decide), h14, h15, h23, h24⟩

theorem soft_miss_witness :
    some "7" ∉ storeOnePost.userIds ∧ some "8" ∉ storeOnePost.postIds ∧
    some "9" ∉ storeOnePost.profileUserIds ∧
    (user storeOnePost "7" = (.ok none, storeOnePost) ∧
    updateUser storeOnePost "7" alUpdate = (.ok none, storeOnePost) ∧
    post storeOnePost "8" = (.ok none, storeOnePost) ∧
    updatePost storeOnePost "8" (PostUpdateInput.mk (.val "U") .absent) 2500
      = (.ok none, storeOnePost) ∧
    deletePost storeOnePost "8" = (.ok false, storeOnePost) ∧
    profile storeOnePost "9" = (.ok none, storeOnePost) ∧
    updateProfile storeOnePost "9"
      (ProfileUpdateInput.mk (.val "b") .absent .absent .absent .absent .absent)
      = (.ok none, storeOnePost)) :=
  ⟨by decide, by decide, by decide,
    soft_miss storeOnePost "7" "8" "9" alUpdate (PostUpdateInput.mk (.val "U") .absent) 2500
      (ProfileUpdateInput.mk (.val "b") .absent .absent .absent .absent .absent)
      (by decide) (by decide) (by decide)⟩


/-! ## `usersByName` and `searchUsers` -/

theorem filterExcept_of_forall_ok {α : Type} (f : α → Except JsError Bool) (g : α → Bool) :
    ∀ l : List α, (∀ x ∈ l, f x = .ok (g x)) → filterExcept f l = .ok (l.filter g) := by
  intro l
  induction l with
  | nil => intro _; rfl
  | cons x xs ih =>
    intro h
    unfold filterExcept
    rw [h x (List.mem_cons_self x xs), ih (fun y hy => h y (List.mem_cons_of_mem x hy))]
    cases hg : g x <;> simp [List.filter, hg]

theorem filterExcept_error_of_mem {α : Type} (f : α → Except JsError Bool) :
    ∀ l : List α, (∃ x ∈ l, ∃ e, f x = .error e) → ∃ e, filterExcept f l = .error e := by
  intro l
  induction l with
  | nil => rintro ⟨x, hx, _⟩; cases hx
  | cons y ys ih =>
    rintro ⟨x, hx, e, he⟩
    unfold filterExcept
    cases hy : f y with
    | error e2 => exact ⟨e2, rfl⟩
    | ok b =>
      have hxs : x ∈ ys := by
        rcases List.mem_cons.1 hx with h | h
        · subst h; rw [he] at hy; cases hy
        · exact h
      obtain ⟨e3, h3⟩ := ih ⟨x, hxs, e, he⟩
      exact ⟨e3, by simp only [h3]⟩

/-- C11, as the code has it: `usersByName(name)` throws when some stored user has no
`firstName` (missing or `null`), or has a `firstName` that does not contain `name` and
no `lastName`; and it returns a list when every stored user has a `firstName` and,
unless that `firstName` contains `name`, a `lastName`. -/
theorem usersByName_throws_iff_read_absent (lower : String → String) (s : Store)
    (name : String) :
    ((∃ r ∈ s.users, ∃ u, s.userObjs[r]? = some u ∧
        ((∀ f, u.firstName ≠ .val f) ∨
         (∃ f, u.firstName = .val f ∧ includesLower lower f name = false ∧
           ∀ l, u.lastName ≠ .val l))) →
      ∃ e, (usersByName lower s name).1 = .error e) ∧
    ((∀ r ∈ s.users, ∃ u f, s.userObjs[r]? = some u ∧ u.firstName = .val f ∧
        (includesLower lower f name = true ∨ ∃ l, u.lastName = .val l)) →
      ∃ out, (usersByName lower s name).1 = .ok out) := by
  constructor
  · rintro ⟨r, hr, u, hu, hbad⟩
    apply filterExcept_error_of_mem
    refine ⟨r, hr, .typeError, ?_⟩
    unfold Store.onUser
    rw [hu]
    simp only
    unfold nameMatches
    rcases hbad with hf | ⟨f, hf, hinc, hl⟩
    · cases hfn : u.firstName with
      | absent => rfl
      | null => rfl
      | val f => exact absurd hfn (hf f)
    · rw [hf]
      cases hln : u.lastName with
      | absent => simp only [fieldIncludes, hinc]
      | null => simp only [fieldIncludes, hinc]
      | val l => exact absurd hln (hl l)
  · intro hall
    have hok : ∀ r ∈ s.users, ∃ b, s.onUser (nameMatches lower name) r = .ok b := by
      intro r hr
      obtain ⟨u, f, hu, hf, hrest⟩ := hall r hr
      unfold Store.onUser
      rw [hu]
      simp only
      unfold nameMatches
      rw [hf]
      simp only [fieldIncludes]
      cases hinc : includesLower lower f name with
      | true => exact ⟨true, rfl⟩
      | false =>
        rcases hrest with h | ⟨l, hl⟩
        · rw [hinc] at h; cases h
        · rw [hl]; exact ⟨_, rfl⟩
    have hg : ∀ r ∈ s.users, s.onUser (nameMatches lower name) r
        = .ok (match s.onUser (nameMatches lower name) r with
               | .ok b => b
               | .error _ => false) := by
      intro r hr
      obtain ⟨b, hb⟩ := hok r hr
      rw [hb]
    exact ⟨_, filterExcept_of_forall_ok _ _ s.users hg⟩

/-- C11 as stated fails: the one stored user has no `lastName`, yet `usersByName("a")`
returns that user, because her `firstName` `"A"` matches and `||` stops there. -/
theorem usersByName_returns_with_absent_lastName :
    storeNoLastName.users = [0] ∧
    (storeNoLastName.userObjs[0]?).map (fun u => (u.firstName, u.lastName))
      = some (.val "A", .absent) ∧
    (usersByName asciiLower storeNoLastName "a").1 = .ok [0] := by
  decide

theorem usersByName_throws_iff_read_absent_witness :
    (∃ r ∈ storeNoLastName.users, ∃ u, storeNoLastName.userObjs[r]? = some u ∧
        ((∀ f, u.firstName ≠ .val f) ∨
         (∃ f, u.firstName = .val f ∧ includesLower asciiLower f "z" = false ∧
           ∀ l, u.lastName ≠ .val l))) ∧
    (∃ e, (usersByName asciiLower storeNoLastName "z").1 = .error e) ∧
    (∀ r ∈ storeNoLastName.users, ∃ u f, storeNoLastName.userObjs[r]? = some u ∧
        u.firstName = .val f ∧
        (includesLower asciiLower f "a" = true ∨ ∃ l, u.lastName = .val l)) ∧
    (∃ out, (usersByName asciiLower storeNoLastName "a").1 = .ok out) := by
  have h1 : ∃ r ∈ storeNoLastName.users, ∃ u, storeNoLastName.userObjs[r]? = some u ∧
        ((∀ f, u.firstName ≠ .val f) ∨
         (∃ f, u.firstName = .val f ∧ includesLower asciiLower f "z" = false ∧
           ∀ l, u.lastName ≠ .val l)) :=
    ⟨0, by decide, newUser Store.empty noLastNameInput 1000, by decide,
      Or.inr ⟨"A", rfl, by decide, fun l h => by cases h⟩⟩
  have h2 : ∀ r ∈ storeNoLastName.users, ∃ u f, storeNoLastName.userObjs[r]? = some u ∧
        u.firstName = .val f ∧
        (includesLower asciiLower f "a" = true ∨ ∃ l, u.lastName = .val l) := by
    intro r hr
    have : r = 0 := by
      have hu : storeNoLastName.users = [0] := by decide
      rw [hu] at hr
      simpa using hr
    subst this
    exact ⟨newUser Store.empty noLastNameInput 1000, "A", by decide, rfl,
      Or.inl (by decide)⟩
  exact ⟨h1, (usersByName_throws_iff_read_absent asciiLower storeNoLastName "z").1 h1,
    h2, (usersByName_throws_iff_read_absent asciiLower storeNoLastName "a").2 h2⟩

theorem includesLower_empty (lower : String → String) (hlower : lower "" = "") (v : String) :
    includesLower lower v "" = true := by
  unfold includesLower
  rw [hlower]
  simp

theorem clauseRejects_eq_spec (lower : String → String) (hlower : lower "" = "")
    (needle : Field String) (v : String) :
    clauseRejects lower needle (.val v) = .ok (!specFieldOk lower needle (.val v)) := by
  unfold clauseRejects specFieldOk
  cases needle with
  | absent => rfl
  | null => rfl
  | val n =>
    simp only [fieldIncludes]
    split
    · rename_i hn
      subst hn
      rw [includesLower_empty lower hlower]
      rfl
    · rfl

theorem searchMatches_eq_spec (lower : String → String) (hlower : lower "" = "")
    (f : UserSearchInput) (u : User) (fn ln : String) (hfn : u.firstName = .val fn)
    (hln : u.lastName = .val ln) :
    searchMatches lower (.val f) u = .ok (specSearchMatch lower f u) := by
  unfold searchMatches specSearchMatch
  simp only [hfn, hln, clauseRejects_eq_spec lower hlower]
  cases specFieldOk lower f.username (.val u.username) <;>
    cases specFieldOk lower f.firstName (.val fn) <;>
    cases specFieldOk lower f.lastName (.val ln) <;> rfl

/-- C12: on a store whose users all have `firstName` and `lastName` (`username` is
always there), and for a `toLowerCase` that keeps the empty string, `searchUsers(filter)`
returns, in the order of `users`, exactly the users for which every supplied filter
field is a case-insensitive substring of the user's field; with no field supplied it
returns all users.  The store is left as it was. -/
theorem searchUsers_conjunctive (lower : String → String) (hlower : lower "" = "")
    (s : Store) (f : UserSearchInput)
    (hs : ∀ r ∈ s.users, ∃ u fn ln, s.userObjs[r]? = some u ∧ u.firstName = .val fn ∧
      u.lastName = .val ln) :
    searchUsers lower s (.val f) =
      (.ok (s.users.filter (fun r =>
        match s.userObjs[r]? with
        | some u => specSearchMatch lower f u
        | none => false)), s) ∧
    searchUsers lower s (.val noFilter) = (.ok s.users, s) := by
  have key : ∀ g : UserSearchInput, searchUsers lower s (.val g) =
      (.ok (s.users.filter (fun r =>
        match s.userObjs[r]? with
        | some u => specSearchMatch lower g u
        | none => false)), s) := by
    intro g
    unfold searchUsers
    congr 1
    apply filterExcept_of_forall_ok
    intro r hr
    obtain ⟨u, fn, ln, hu, hfn, hln⟩ := hs r hr
    unfold Store.onUser
    rw [hu]
    exact searchMatches_eq_spec lower hlower g u fn ln hfn hln
  refine ⟨key f, ?_⟩
  rw [key]
  congr 2
  apply List.filter_eq_self.2
  intro r hr
  obtain ⟨u, fn, ln, hu, hfn, hln⟩ := hs r hr
  rw [hu]
  simp [specSearchMatch, specFieldOk, noFilter]

theorem searchUsers_conjunctive_witness :
    asciiLower "" = "" ∧
    (∀ r ∈ storeOneUser.users, ∃ u fn ln, storeOneUser.userObjs[r]? = some u ∧
      u.firstName = .val fn ∧ u.lastName = .val ln) ∧
    (searchUsers asciiLower storeOneUser (.val alFilter) =
      (.ok (storeOneUser.users.filter (fun r =>
        match storeOneUser.userObjs[r]? with
        | some u => specSearchMatch asciiLower alFilter u
        | none => false)), storeOneUser) ∧
    searchUsers asciiLower storeOneUser (.val noFilter)
      = (.ok storeOneUser.users, storeOneUser)) ∧
    (searchUsers asciiLower storeOneUser (.val alFilter)).1 = .ok [0] := by
  have h : ∀ r ∈ storeOneUser.users, ∃ u fn ln, storeOneUser.userObjs[r]? = some u ∧
      u.firstName = .val fn ∧ u.lastName = .val ln := by
    intro r hr
    have : r = 0 := by
      have hu : storeOneUser.users = [0] := by decide
      rw [hu] at hr
      simpa using hr
    subst this
    exact ⟨newUser Store.empty alInput 1000, "A", "L", by decide, rfl, rfl⟩
  exact ⟨by decide, h,
    searchUsers_conjunctive asciiLower (by decide) storeOneUser _ h, by decide⟩


/-! ## Authors are looked up again on every read of a post -/

theorem Inv.findUser_unique {s : Store} (h : Inv s) {r : Nat} {id : String}
    (hr : r ∈ s.users) (hid : s.userId? r = some id) : s.findUser id = some r := by
  have hsome : (s.findUser id).isSome = true := by
    unfold Store.findUser
    rw [List.find?_isSome]
    exact ⟨r, hr, by simp [hid]⟩
  obtain ⟨a, ha⟩ := Option.isSome_iff_exists.1 hsome
  have ha2 := findUser_mem ha
  have : a = r :=
    List.inj_on_of_nodup_map h.userIds_nodup ha2.1 hr (ha2.2.trans hid.symm)
  rw [ha, this]

theorem Inv.findPost_unique {s : Store} (h : Inv s) {r : Nat} {id : String}
    (hr : r ∈ s.posts) (hid : s.postId? r = some id) : s.findPost id = some r := by
  have hsome : (s.findPost id).isSome = true := by
    unfold Store.findPost
    rw [List.find?_isSome]
    exact ⟨r, hr, by simp [hid]⟩
  obtain ⟨a, ha⟩ := Option.isSome_iff_exists.1 hsome
  have ha2 := findPost_mem ha
  have : a = r :=
    List.inj_on_of_nodup_map h.postIds_nodup ha2.1 hr (ha2.2.trans hid.symm)
  rw [ha, this]

/-- The author lookup of `post` and `posts` on a post object of a store that satisfies
the invariant: the author's id is read, and the first user with that id is found. -/
theorem Inv.resolveAuthor_find {s : Store} (h : Inv s) {p : Post} (hp : p ∈ s.postObjs) :
    ∃ a aid, s.authorIdOf? p = some aid ∧ s.findUser aid = some a ∧
      s.resolveAuthor p = .ok (some a) := by
  obtain ⟨a, aid, hres, haid, hmem, hid⟩ := h.resolveAuthor hp
  exact ⟨a, aid, haid, h.findUser_unique hmem hid, hres⟩

theorem post_author_live {s : Store} (h : Inv s) (id : String) (r : Nat)
    (hr : (post s id).1 = .ok (some r)) :
    ∃ p a aid, s.postObjs[r]? = some p ∧ s.authorIdOf? p = some aid ∧
      s.findUser aid = some a ∧
      (post s id).2.postObjs[r]? = some { p with author := some a } ∧
      (post s id).2.users = s.users ∧ (post s id).2.userObjs = s.userObjs := by
  unfold post at hr ⊢
  cases hf : s.findPost id with
  | none => rw [hf] at hr; cases hr
  | some r0 =>
    rw [hf] at hr
    simp only at hr ⊢
    have hlive := h.post_live (findPost_mem hf).1
    have hp : s.postObjs[r0]? = some s.postObjs[r0] := List.getElem?_eq_getElem hlive
    obtain ⟨a, aid, haid, hfind, hres⟩ := h.resolveAuthor_find (List.getElem_mem hlive)
    rw [hp] at hr ⊢
    simp only [hres] at hr ⊢
    cases hr
    refine ⟨s.postObjs[r], a, aid, hp, haid, hfind, ?_, trivial, trivial⟩
    simp [List.getElem?_set, hlive]

theorem mem_jsSlice {α : Type} {xs : List α} {a b : Int} {x : α}
    (h : x ∈ jsSlice xs a b) : x ∈ xs := by
  unfold jsSlice at h
  exact List.mem_of_mem_drop (List.mem_of_mem_take h)

theorem posts_author_live {s : Store} (h : Inv s) (limit offset : Field Int) :
    ∃ out : List Post, posts s limit offset = (.ok out, s) ∧
      ∀ q ∈ out, ∃ r ∈ s.posts, ∃ p a aid, s.postObjs[r]? = some p ∧
        s.authorIdOf? p = some aid ∧ s.findUser aid = some a ∧
        q = { p with author := some a } := by
  have hw : ∀ r ∈ s.posts, ∃ p a aid, s.postObjs[r]? = some p ∧
      s.authorIdOf? p = some aid ∧ s.findUser aid = some a ∧
      s.withLiveAuthor r = .ok { p with author := some a } := by
    intro r hr
    have hlive := h.post_live hr
    have hp : s.postObjs[r]? = some s.postObjs[r] := List.getElem?_eq_getElem hlive
    obtain ⟨a, aid, haid, hfind, hres⟩ := h.resolveAuthor_find (List.getElem_mem hlive)
    refine ⟨s.postObjs[r], a, aid, hp, haid, hfind, ?_⟩
    unfold Store.withLiveAuthor
    rw [hp]
    simp only [hres]
  obtain ⟨out, ho, hl, hk⟩ := mapExcept_of_forall_ok s.withLiveAuthor
    (jsSlice s.posts (argInt 0 offset) (argInt 0 offset + argInt 10 limit))
    (fun x hx => by
      obtain ⟨p, a, aid, _, _, _, hwx⟩ := hw x (mem_jsSlice hx)
      exact ⟨_, hwx⟩)
  refine ⟨out, ?_, ?_⟩
  · unfold posts
    simp only [ho]
  · intro q hq
    obtain ⟨k, hkq⟩ := List.mem_iff_getElem?.1 hq
    have hklt : k < out.length := (List.getElem?_eq_some_iff.1 hkq).1
    rw [hl] at hklt
    have hx := List.getElem?_eq_getElem hklt
    obtain ⟨y, hy, hout⟩ := hk k _ hx
    have hmem : (jsSlice s.posts (argInt 0 offset) (argInt 0 offset + argInt 10 limit))[k]
        ∈ s.posts := mem_jsSlice (List.getElem_mem hklt)
    obtain ⟨p, a, aid, hp, haid, hfind, hwx⟩ := hw _ hmem
    rw [hwx] at hy
    cases hy
    rw [hkq] at hout
    cases hout
    exact ⟨_, hmem, p, a, aid, hp, haid, hfind, rfl⟩

theorem updateUser_findUser {s : Store} (h : Inv s) (uid : String) (uin : UserUpdateInput)
    (r2 : Nat) (hr : (updateUser s uid uin).1 = .ok (some r2)) :
    ∃ r0 u, s.findUser uid = some r0 ∧ s.userObjs[r0]? = some u ∧
      (updateUser s uid uin).2.userObjs[r2]? = some (u.merge uin) ∧
      (updateUser s uid uin).2.findUser uid = some r2 := by
  have hinv2 : Inv (updateUser s uid uin).2 := inv_updateUser h uid uin
  unfold updateUser at hr hinv2 ⊢
  cases hi : findIndex (fun r => s.userId? r == some uid) s.users with
  | none => rw [hi] at hr; cases hr
  | some i =>
    rw [hi] at hr hinv2
    simp only at hr hinv2 ⊢
    obtain ⟨r0, hr0, hp, _⟩ := findIndex_eq_some hi
    have hilt : i < s.users.length := (List.getElem?_eq_some_iff.1 hr0).1
    have hrid : s.userId? r0 = some uid := by simpa using hp
    have hlive := userId?_lt hrid
    have hu : s.userObjs[r0]? = some s.userObjs[r0] := List.getElem?_eq_getElem hlive
    have hbind : (s.users[i]?).bind (fun r => s.userObjs[r]?) = some s.userObjs[r0] := by
      rw [hr0]; exact hu
    have huid : s.userObjs[r0].id = uid := by
      simpa [Store.userId?, hu] using hrid
    rw [hbind] at hr hinv2 ⊢
    simp only at hr hinv2 ⊢
    cases hr
    refine ⟨r0, s.userObjs[r0], h.findUser_unique (mem_of_getElem? hr0) hrid, hu,
      by simp, ?_⟩
    apply hinv2.findUser_unique
    · exact mem_of_getElem? (by simp [List.getElem?_set, hilt] :
        (s.users.set i s.userObjs.length)[i]? = some s.userObjs.length)
    · simp [Store.userId?, User.merge, huid]

/-- C13: in a reachable store, the post object that `post(id)` returns has as `author`
the first user of `users` whose id is the post's stored author id, and so has every post
that `posts(limit, offset)` returns.  After a successful `updateUser(uid, input)` that
first user is the object `updateUser` has built (the old fields merged with the input),
so a post whose stored author id is `uid` comes back from `post` and from `posts` with
the updated object as `author`. -/
theorem post_and_posts_authors_live (s : Store) (hs : Reachable s) :
    (∀ id r, (post s id).1 = .ok (some r) →
      ∃ p a aid, s.postObjs[r]? = some p ∧ s.authorIdOf? p = some aid ∧
        s.findUser aid = some a ∧
        (post s id).2.postObjs[r]? = some { p with author := some a }) ∧
    (∀ limit offset : Field Int, ∃ out : List Post, (posts s limit offset).1 = .ok out ∧
      ∀ q ∈ out, ∃ r ∈ s.posts, ∃ p a aid, s.postObjs[r]? = some p ∧
        s.authorIdOf? p = some aid ∧ s.findUser aid = some a ∧
        q = { p with author := some a }) ∧
    (∀ (uid : String) (uin : UserUpdateInput) (r2 : Nat),
      (updateUser s uid uin).1 = .ok (some r2) →
      ∃ r0 u, s.findUser uid = some r0 ∧ s.userObjs[r0]? = some u ∧
        (updateUser s uid uin).2.userObjs[r2]? = some (u.merge uin) ∧
        (∀ id r p, (post (updateUser s uid uin).2 id).1 = .ok (some r) →
          (updateUser s uid uin).2.postObjs[r]? = some p →
          (updateUser s uid uin).2.authorIdOf? p = some uid →
          (post (updateUser s uid uin).2 id).2.postObjs[r]?
            = some { p with author := some r2 }) ∧
        (∀ limit offset : Field Int, ∃ out : List Post,
          (posts (updateUser s uid uin).2 limit offset).1 = .ok out ∧
          ∀ q ∈ out, ∃ r ∈ (updateUser s uid uin).2.posts, ∃ p a,
            (updateUser s uid uin).2.postObjs[r]? = some p ∧
            q = { p with author := some a } ∧
            ((updateUser s uid uin).2.authorIdOf? p = some uid → a = r2))) := by
  have h := hs.inv
  refine ⟨?_, ?_, ?_⟩
  · intro id r hr
    obtain ⟨p, a, aid, hp, haid, hfind, hq, _, _⟩ := post_author_live h id r hr
    exact ⟨p, a, aid, hp, haid, hfind, hq⟩
  · intro limit offset
    obtain ⟨out, ho, hall⟩ := posts_author_live h limit offset
    exact ⟨out, by rw [ho], hall⟩
  · intro uid uin r2 hr
    have h2 : Inv (updateUser s uid uin).2 := inv_updateUser h uid uin
    obtain ⟨r0, u, hf0, hu, hnew, hf2⟩ := updateUser_findUser h uid uin r2 hr
    refine ⟨r0, u, hf0, hu, hnew, ?_, ?_⟩
    · intro id r p hpost hp haid
      obtain ⟨p1, a, aid, hp1, haid1, hfind, hq, _, _⟩ := post_author_live h2 id r hpost
      rw [hp] at hp1
      cases hp1
      rw [haid] at haid1
      cases haid1
      rw [hf2] at hfind
      cases hfind
      exact hq
    · intro limit offset
      obtain ⟨out, ho, hall⟩ := posts_author_live h2 limit offset
      refine ⟨out, by rw [ho], ?_⟩
      intro q hq
      obtain ⟨r, hr, p, a, aid, hp, haid, hfind, hqe⟩ := hall q hq
      refine ⟨r, hr, p, a, hp, hqe, ?_⟩
      intro hauth
      rw [hauth] at haid
      cases haid
      rw [hf2] at hfind
      exact (Option.some.inj hfind).symm

theorem post_and_posts_authors_live_witness :
    Reachable storeOnePost ∧
    (updateUser storeOnePost "0" alUpdate).1 = .ok (some 1) ∧
    (post storeStaleAuthor "0").1 = .ok (some 0) ∧
    ((post storeStaleAuthor "0").2.postObjs[0]?).map (fun p => p.author) = some (some 1) ∧
    (storeStaleAuthor.userObjs[1]?).map (fun u => (u.email, u.firstName, u.lastName))
      = some (.val "b@x.com", .val "A", .null) ∧
    (posts storeStaleAuthor .absent .absent).1.toOption.map
      (List.map (fun p => (p.id, p.author))) = some [("0", some 1)] ∧
    (∀ id r, (post storeOnePost id).1 = .ok (some r) →
      ∃ p a aid, storeOnePost.postObjs[r]? = some p ∧
        storeOnePost.authorIdOf? p = some aid ∧ storeOnePost.findUser aid = some a ∧
        (post storeOnePost id).2.postObjs[r]? = some { p with author := some a }) :=
  ⟨reachable_storeOnePost, by decide, by decide, by decide, by decide, by decide,
    (post_and_posts_authors_live storeOnePost reachable_storeOnePost).1⟩

/-! ## Every post has a stored author -/

theorem Inv.author_stored {s : Store} (h : Inv s) {p : Post} (hp : p ∈ s.postObjs) :
    ∃ a aid, p.author = some a ∧ s.userId? a = some aid ∧ some aid ∈ s.userIds := by
  obtain ⟨a, ha, hlt⟩ := h.authors p hp
  have hu : s.userObjs[a]? = some s.userObjs[a] := List.getElem?_eq_getElem hlt
  obtain ⟨k, hk, hid⟩ := h.userObjIds _ (List.getElem_mem hlt)
  refine ⟨a, s.userObjs[a].id, ha, by simp [Store.userId?, hu], ?_⟩
  rw [h.userIds, hid]
  exact mem_idsBelow.2 ⟨k, hk, rfl⟩

/-- C20: in a reachable store the `author` of every stored post is a user object whose
id is the id of a stored user.  Hence `post(id)` never throws and the post object it
returns has a stored user as `author`, and `posts(limit, offset)` never throws and every
post it returns has a stored user as `author`. -/
theorem authors_are_stored_users (s : Store) (hs : Reachable s) :
    (∀ r ∈ s.posts, ∃ p a aid, s.postObjs[r]? = some p ∧ p.author = some a ∧
      s.userId? a = some aid ∧ some aid ∈ s.userIds) ∧
    (∀ id, ∃ v, (post s id).1 = .ok v) ∧
    (∀ id r, (post s id).1 = .ok (some r) →
      ∃ q a, (post s id).2.postObjs[r]? = some q ∧ q.author = some a ∧
        a ∈ (post s id).2.users ∧ ∃ aid, (post s id).2.userId? a = some aid) ∧
    (∀ limit offset : Field Int, ∃ out : List Post, (posts s limit offset).1 = .ok out ∧
      ∀ q ∈ out, ∃ a, q.author = some a ∧ a ∈ s.users ∧ ∃ aid, s.userId? a = some aid) := by
  have h := hs.inv
  refine ⟨?_, ?_, ?_, ?_⟩
  · intro r hr
    have hlive := h.post_live hr
    obtain ⟨a, aid, ha, hid, hmem⟩ := h.author_stored (List.getElem_mem hlive)
    exact ⟨_, a, aid, List.getElem?_eq_getElem hlive, ha, hid, hmem⟩
  · intro id
    unfold post
    cases hf : s.findPost id with
    | none => exact ⟨none, rfl⟩
    | some r =>
      simp only
      have hlive := h.post_live (findPost_mem hf).1
      have hp : s.postObjs[r]? = some s.postObjs[r] := List.getElem?_eq_getElem hlive
      obtain ⟨a, aid, _, _, hres⟩ := h.resolveAuthor_find (List.getElem_mem hlive)
      rw [hp]
      simp only [hres]
      exact ⟨some r, rfl⟩
  · intro id r hr
    obtain ⟨p, a, aid, _, _, hfind, hq, hu, ho⟩ := post_author_live h id r hr
    have hm := findUser_mem hfind
    refine ⟨_, a, hq, rfl, by rw [hu]; exact hm.1, aid, ?_⟩
    rw [userId?_congr s _ ho]
    exact hm.2
  · intro limit offset
    obtain ⟨out, ho, hall⟩ := posts_author_live h limit offset
    refine ⟨out, by rw [ho], ?_⟩
    intro q hq
    obtain ⟨r, _, p, a, aid, _, _, hfind, hqe⟩ := hall q hq
    have hm := findUser_mem hfind
    exact ⟨a, by rw [hqe], hm.1, aid, hm.2⟩

theorem authors_are_stored_users_witness :
    Reachable storeStaleAuthor ∧
    (∀ r ∈ storeStaleAuthor.posts, ∃ p a aid, storeStaleAuthor.postObjs[r]? = some p ∧
      p.author = some a ∧ storeStaleAuthor.userId? a = some aid ∧
      some aid ∈ storeStaleAuthor.userIds) ∧
    (∀ id, ∃ v, (post storeStaleAuthor id).1 = .ok v) :=
  ⟨reachable_runAll _ _ reachable_storeOnePost,
    (authors_are_stored_users storeStaleAuthor
      (reachable_runAll _ _ reachable_storeOnePost)).1,
    (authors_are_stored_users storeStaleAuthor
      (reachable_runAll _ _ reachable_storeOnePost)).2.1⟩


/-! ## `user` joins posts and profile -/

theorem filterByAuthor_eq_filter {s : Store} (hs : s.PostsHaveAuthors) (uid : String) :
    s.filterByAuthor uid
      = .ok (s.posts.filter (fun x => decide (s.authorId? x = some uid))) := by
  unfold Store.filterByAuthor
  apply filterExcept_of_forall_ok
  intro r hr
  obtain ⟨a, ha⟩ := Option.isSome_iff_exists.1 (hs r hr)
  unfold Store.authorIs
  rw [ha]
  simp only [Option.some.injEq]
  rfl

/-- C14: on a store whose posts have authors, `user(id)` with the id of a stored user
returns the first user of `users` with that id.  The `posts` it has assigned to that
object is the list `userPosts(id)` returns, the stored posts whose stored author id is
`id`, in the order of `posts`, and no post object is touched; the `profile` it has
assigned is what `profile(id)` returns, the first profile whose `user.id` is `id`. -/
theorem user_joins_posts_and_profile (s : Store) (id : String)
    (hid : some id ∈ s.userIds) (hs : s.PostsHaveAuthors) :
    ∃ (r : Nat) (u : User) (ps : List Nat),
      s.findUser id = some r ∧ s.userObjs[r]? = some u ∧ u.id = id ∧
      (user s id).1 = .ok (some r) ∧
      (user s id).2.userObjs[r]?
        = some { u with posts := some ps, profile := some (s.findProfile id) } ∧
      (userPosts s id).1 = .ok ps ∧
      ps = s.posts.filter (fun x => decide (s.authorId? x = some id)) ∧
      (profile s id).1 = .ok (s.findProfile id) ∧
      (user s id).2.postObjs = s.postObjs ∧ (user s id).2.posts = s.posts ∧
      (user s id).2.profiles = s.profiles ∧
      (userPosts (user s id).2 id).1 = .ok ps ∧
      (profile (user s id).2 id).1 = .ok (s.findProfile id) := by
  obtain ⟨r0, hr0, he⟩ := List.mem_map.1 hid
  have hsome : (s.findUser id).isSome = true := by
    unfold Store.findUser
    rw [List.find?_isSome]
    exact ⟨r0, hr0, by simp [he]⟩
  obtain ⟨r, hf⟩ := Option.isSome_iff_exists.1 hsome
  have hrid := (findUser_mem hf).2
  have hlive := userId?_lt hrid
  obtain ⟨u, hu⟩ : ∃ u, s.userObjs[r]? = some u := ⟨_, List.getElem?_eq_getElem hlive⟩
  have huid : u.id = id := by
    simpa [Store.userId?, hu] using hrid
  have hfilter := filterByAuthor_eq_filter hs id
  obtain ⟨ps, hps⟩ : ∃ ps, ps = s.posts.filter (fun x => decide (s.authorId? x = some id)) :=
    ⟨_, rfl⟩
  rw [← hps] at hfilter
  obtain ⟨v, hv⟩ : ∃ v : User,
      v = { u with posts := some ps, profile := some (s.findProfile id) } := ⟨_, rfl⟩
  have huser : user s id = (.ok (some r), { s with userObjs := s.userObjs.set r v }) := by
    unfold user
    rw [hf, hv]
    simp only [hu, huid, hfilter]
  have hU : Store.userId? (user s id).2 = s.userId? := by
    rw [huser]
    exact userId?_set s _ r u v hu (by rw [hv]) rfl
  have hA : Store.authorId? (user s id).2 = s.authorId? := by
    funext x
    unfold Store.authorId? Store.authorIdOf?
    rw [hU, huser]
  have hsafter : Store.PostsHaveAuthors (user s id).2 := by
    intro x hx
    rw [hA]
    apply hs
    rw [huser] at hx
    exact hx
  have hfilter2 := filterByAuthor_eq_filter hsafter id
  rw [hA] at hfilter2
  refine ⟨r, u, ps, hf, hu, huid, by rw [huser], ?_, hfilter, hps, rfl,
    by rw [huser], by rw [huser], by rw [huser], ?_, ?_⟩
  · rw [huser, ← hv]
    simp [List.getElem?_set, hlive]
  · unfold userPosts
    simp only
    rw [hfilter2, hps]
    rw [huser]
  · unfold profile Store.findProfile
    simp only
    rw [hU]
    rw [huser]

theorem user_joins_posts_and_profile_witness :
    some "0" ∈ storeStaleAuthor.userIds ∧ storeStaleAuthor.PostsHaveAuthors ∧
    (user storeStaleAuthor "0").1 = .ok (some 1) ∧
    ((user storeStaleAuthor "0").2.userObjs[1]?).map (fun u => u.posts) = some (some [0]) ∧
    (userPosts storeStaleAuthor "0").1 = .ok [0] ∧
    ∃ (r : Nat) (u : User) (ps : List Nat),
      storeStaleAuthor.findUser "0" = some r ∧ storeStaleAuthor.userObjs[r]? = some u ∧
      u.id = "0" ∧
      (user storeStaleAuthor "0").1 = .ok (some r) ∧
      (user storeStaleAuthor "0").2.userObjs[r]?
        = some { u with posts := some ps,
                        profile := some (storeStaleAuthor.findProfile "0") } ∧
      (userPosts storeStaleAuthor "0").1 = .ok ps ∧
      ps = storeStaleAuthor.posts.filter
        (fun x => decide (storeStaleAuthor.authorId? x = some "0")) ∧
      (profile storeStaleAuthor "0").1 = .ok (storeStaleAuthor.findProfile "0") ∧
      (user storeStaleAuthor "0").2.postObjs = storeStaleAuthor.postObjs ∧
      (user storeStaleAuthor "0").2.posts = storeStaleAuthor.posts ∧
      (user storeStaleAuthor "0").2.profiles = storeStaleAuthor.profiles ∧
      (userPosts (user storeStaleAuthor "0").2 "0").1 = .ok ps ∧
      (profile (user storeStaleAuthor "0").2 "0").1
        = .ok (storeStaleAuthor.findProfile "0") :=
  ⟨by decide, by decide, by decide, by decide, by decide,
    user_joins_posts_and_profile storeStaleAuthor "0" (by decide) (by decide)⟩

/-! ## Counters that nothing increments -/

theorem nothingCounted_run {s : Store} (c : Call) (h : s.NothingCounted) :
    (c.run s).NothingCounted := by
  cases c with
  | user id =>
    simp only [Call.run, user]
    (repeat' split) <;> exact h
  | usersByName lower name => exact h
  | searchUsers lower filter => exact h
  | post id =>
    simp only [Call.run, post]
    repeat' split
    · exact h
    · exact h
    · exact h
    · rename_i p hp _ a _
      refine ⟨h.1, ?_⟩
      intro q hq
      rcases List.mem_or_eq_of_mem_set hq with hq | hq
      · exact h.2 q hq
      · subst hq
        exact h.2 p (mem_of_getElem? hp)
  | posts limit offset => exact h
  | userPosts userId => exact h
  | profile userId => exact h
  | createUser input now =>
    refine ⟨?_, h.2⟩
    intro p hp
    simp only [Call.run, createUser, List.mem_append, List.mem_singleton] at hp
    rcases hp with hp | hp
    · exact h.1 p hp
    · subst hp
      exact ⟨rfl, rfl⟩
  | updateUser id input =>
    simp only [Call.run, updateUser]
    (repeat' split) <;> exact h
  | addPost input now1 now2 =>
    simp only [Call.run, addPost]
    split
    · exact h
    · refine ⟨h.1, ?_⟩
      intro p hp
      simp only [List.mem_append, List.mem_singleton] at hp
      rcases hp with hp | hp
      · exact h.2 p hp
      · subst hp
        exact ⟨rfl, rfl⟩
  | updatePost id input now =>
    simp only [Call.run, updatePost]
    repeat' split
    · exact h
    · exact h
    · rename_i i hi _ p hp
      obtain ⟨r, hr, _, _⟩ := findIndex_eq_some hi
      have hpr : s.postObjs[r]? = some p := by simpa [hr] using hp
      refine ⟨h.1, ?_⟩
      intro q hq
      simp only [List.mem_append, List.mem_singleton] at hq
      rcases hq with hq | hq
      · exact h.2 q hq
      · subst hq
        exact h.2 p (mem_of_getElem? hpr)
  | deletePost id =>
    simp only [Call.run, deletePost]
    (repeat' split) <;> exact h
  | updateProfile userId input =>
    simp only [Call.run, updateProfile]
    repeat' split
    · exact h
    · exact h
    · rename_i p hp
      refine ⟨?_, h.2⟩
      intro q hq
      rcases List.mem_or_eq_of_mem_set hq with hq | hq
      · exact h.1 q hq
      · subst hq
        exact h.1 p (mem_of_getElem? hp)

theorem Reachable.nothingCounted {s : Store} (h : Reachable s) : s.NothingCounted := by
  induction h with
  | init =>
    constructor
    · intro p hp; cases hp
    · intro p hp; cases hp
  | step c _ ih => exact nothingCounted_run c ih

/-- C15: in a reachable store every stored profile has `followers = 0` and
`following = 0`, and every stored post is a post object with `likes = 0` and no
comments. -/
theorem followers_and_likes_stay_zero (s : Store) (hs : Reachable s) :
    (∀ p ∈ s.profiles, p.followers = 0 ∧ p.following = 0) ∧
    (∀ r ∈ s.posts, ∃ p, s.postObjs[r]? = some p ∧ p.likes = 0 ∧ p.comments = []) := by
  refine ⟨hs.nothingCounted.1, ?_⟩
  intro r hr
  have hlive := hs.inv.post_live hr
  exact ⟨s.postObjs[r], List.getElem?_eq_getElem hlive,
    hs.nothingCounted.2 _ (List.getElem_mem hlive)⟩

theorem followers_and_likes_stay_zero_witness :
    Reachable storeFivePosts ∧
    ((∀ p ∈ storeFivePosts.profiles, p.followers = 0 ∧ p.following = 0) ∧
    (∀ r ∈ storeFivePosts.posts, ∃ p, storeFivePosts.postObjs[r]? = some p ∧
      p.likes = 0 ∧ p.comments = [])) :=
  ⟨reachable_storeFivePosts,
    followers_and_likes_stay_zero storeFivePosts reachable_storeFivePosts⟩


/-! ## `addPost` for a known author -/

/-- What `addPost` does when `authorId` is the id of a stored user: one post object is
built and appended, `addPost` returns it, and the counter goes up by one.  The object
has the decimal of the old counter as `id`, the input's `title` and `content`, the first
user with that id as `author`, no likes and no comments; `createdAt` is the first clock
reading and `updatedAt` the second, so the two are equal when the readings are. -/
theorem addPost_appends (s : Store) (input : PostCreateInput) (now1 now2 : Nat)
    (hid : some input.authorId ∈ s.userIds) :
    ∃ (a : Nat) (u : User) (p : Post),
      s.findUser input.authorId = some a ∧ s.userObjs[a]? = some u ∧
      u.id = input.authorId ∧
      (addPost s input now1 now2).1 = .ok s.postObjs.length ∧
      (addPost s input now1 now2).2.postObjs = s.postObjs ++ [p] ∧
      (addPost s input now1 now2).2.posts = s.posts ++ [s.postObjs.length] ∧
      (addPost s input now1 now2).2.postIdCounter = s.postIdCounter + 1 ∧
      p.id = jsString s.postIdCounter ∧ p.title = input.title ∧
      p.content = .val input.content ∧ p.author = some a ∧ p.likes = 0 ∧
      p.comments = [] ∧ p.createdAt = now1 ∧ p.updatedAt = now2 ∧
      (now1 = now2 → p.createdAt = p.updatedAt) ∧
      (addPost s input now1 now2).2.users = s.users ∧
      (addPost s input now1 now2).2.userObjs = s.userObjs ∧
      (addPost s input now1 now2).2.profiles = s.profiles := by
  obtain ⟨r0, hr0, he⟩ := List.mem_map.1 hid
  have hsome : (s.findUser input.authorId).isSome = true := by
    unfold Store.findUser
    rw [List.find?_isSome]
    exact ⟨r0, hr0, by simp [he]⟩
  obtain ⟨a, hf⟩ := Option.isSome_iff_exists.1 hsome
  have hrid := (findUser_mem hf).2
  have hlive := userId?_lt hrid
  have hu : s.userObjs[a]? = some s.userObjs[a] := List.getElem?_eq_getElem hlive
  have huid : s.userObjs[a].id = input.authorId := by
    simpa [Store.userId?, hu] using hrid
  refine ⟨a, s.userObjs[a], newPost s input a now1 now2, hf, hu, huid, ?_, ?_, ?_, ?_,
    rfl, rfl, rfl, rfl, rfl, rfl, rfl, rfl, fun h => h, ?_, ?_, ?_⟩ <;>
  · unfold addPost
    rw [hf]

/-- C16 fails on the code when the clock advances between the two `new Date()` calls of
`addPost`: with the readings `2000` and `2001` the new post has `createdAt = 2000` and
`updatedAt = 2001`.  The rest of the claim holds there: the post is appended and
returned, with id `"0"`, the author object `0`, no likes and no comments. -/
theorem addPost_reads_clock_twice :
    (addPost storeOneUser (postInput "T") 2000 2001).1 = .ok 0 ∧
    (addPost storeOneUser (postInput "T") 2000 2001).2.posts = [0] ∧
    ((addPost storeOneUser (postInput "T") 2000 2001).2.postObjs[0]?).map
      (fun p => (p.id, p.author, p.likes, p.comments.length, p.createdAt, p.updatedAt))
      = some ("0", some 0, 0, 0, 2000, 2001) ∧
    ((addPost storeOneUser (postInput "T") 2000 2001).2.postObjs[0]?).map
      (fun p => decide (p.createdAt = p.updatedAt)) = some false := by
  decide

theorem addPost_appends_example :
    some (postInput "T").authorId ∈ storeOneUser.userIds ∧
    (addPost storeOneUser (postInput "T") 2000 2000).1 = .ok 0 ∧
    ((addPost storeOneUser (postInput "T") 2000 2000).2.postObjs[0]?).map
      (fun p => (p.id, p.author, p.likes, p.comments.length, p.createdAt, p.updatedAt))
      = some ("0", some 0, 0, 0, 2000, 2000) ∧
    (storeOneUser.userObjs[0]?).map (fun u => u.id) = some "0" ∧
    ∃ (a : Nat) (u : User), storeOneUser.findUser (postInput "T").authorId = some a ∧
      storeOneUser.userObjs[a]? = some u ∧ u.id = (postInput "T").authorId := by
  obtain ⟨a, u, p, h1, h2, h3, _⟩ :=
    addPost_appends storeOneUser (postInput "T") 2000 2000 (by decide)
  exact ⟨by decide, by decide, by decide, by decide, a, u, h1, h2, h3⟩

/-! ## `updateProfile` -/

theorem Field.merge_absent {α : Type} (old : Field α) : old.merge .absent = old := rfl

theorem Field.merge_supplied {α : Type} (old input : Field α) (h : input ≠ .absent) :
    old.merge input = input := by
  cases input with
  | absent => exact absurd rfl h
  | null => rfl
  | val a => rfl

/-- C17: `updateProfile(userId, input)` on the `user.id` of a stored profile returns the
profile it stores at the position of the first profile with that `user.id`.  In it every
property the input carries has the input's value (a supplied `socialLinks` replaces the
old list as a whole) and every other property, `id`, `user`, `followers` and `following`
among them, has its old value.  The other profiles, the users, the posts, the heaps and
the counters are untouched. -/
theorem updateProfile_merges (s : Store) (userId : String) (input : ProfileUpdateInput)
    (hid : some userId ∈ s.profileUserIds) :
    ∃ (i : Nat) (p q : Profile),
      s.profiles[i]? = some p ∧ s.userId? p.user = some userId ∧
      (∀ j y, j < i → s.profiles[j]? = some y → s.userId? y.user ≠ some userId) ∧
      (updateProfile s userId input).1 = .ok (some q) ∧
      (updateProfile s userId input).2.profiles[i]? = some q ∧
      (input.bio = .absent → q.bio = p.bio) ∧
      (input.bio ≠ .absent → q.bio = input.bio) ∧
      (input.location = .absent → q.location = p.location) ∧
      (input.location ≠ .absent → q.location = input.location) ∧
      (input.website = .absent → q.website = p.website) ∧
      (input.website ≠ .absent → q.website = input.website) ∧
      (input.profilePicture = .absent → q.profilePicture = p.profilePicture) ∧
      (input.profilePicture ≠ .absent → q.profilePicture = input.profilePicture) ∧
      (input.coverPicture = .absent → q.coverPicture = p.coverPicture) ∧
      (input.coverPicture ≠ .absent → q.coverPicture = input.coverPicture) ∧
      (input.socialLinks = .absent → q.socialLinks = p.socialLinks) ∧
      (input.socialLinks ≠ .absent → q.socialLinks = input.socialLinks) ∧
      (∀ links, input.socialLinks = .val links → q.socialLinks = .val links) ∧
      q.id = p.id ∧ q.user = p.user ∧ q.followers = p.followers ∧
      q.following = p.following ∧
      (∀ j, j ≠ i → (updateProfile s userId input).2.profiles[j]? = s.profiles[j]?) ∧
      (updateProfile s userId input).2.profiles.length = s.profiles.length ∧
      (updateProfile s userId input).2.users = s.users ∧
      (updateProfile s userId input).2.userObjs = s.userObjs ∧
      (updateProfile s userId input).2.posts = s.posts ∧
      (updateProfile s userId input).2.postObjs = s.postObjs ∧
      (updateProfile s userId input).2.userIdCounter = s.userIdCounter ∧
      (updateProfile s userId input).2.postIdCounter = s.postIdCounter ∧
      (updateProfile s userId input).2.profileIdCounter = s.profileIdCounter := by
  obtain ⟨p0, hp0, he⟩ := List.mem_map.1 hid
  have hmatch : (fun p : Profile => s.userId? p.user == some userId) p0 = true := by
    simp [he]
  obtain ⟨i, hi⟩ : ∃ i, findIndex (fun p : Profile => s.userId? p.user == some userId)
      s.profiles = some i := findIndex_isSome_of_mem hp0 hmatch
  obtain ⟨p, hp, hpp, hfirst⟩ := findIndex_eq_some hi
  have hilt : i < s.profiles.length := (List.getElem?_eq_some_iff.1 hp).1
  have hpid : s.userId? p.user = some userId := by simpa using hpp
  have hupd : updateProfile s userId input = (.ok (some (p.merge input)),
      { s with profiles := s.profiles.set i (p.merge input) }) := by
    unfold updateProfile
    rw [hi]
    simp only [hp]
  rw [hupd]
  refine ⟨i, p, p.merge input, hp, hpid, ?_, rfl, ?_,
    fun h => by simp [Profile.merge, h, Field.merge_absent],
    fun h => by simp [Profile.merge, Field.merge_supplied _ _ h],
    fun h => by simp [Profile.merge, h, Field.merge_absent],
    fun h => by simp [Profile.merge, Field.merge_supplied _ _ h],
    fun h => by simp [Profile.merge, h, Field.merge_absent],
    fun h => by simp [Profile.merge, Field.merge_supplied _ _ h],
    fun h => by simp [Profile.merge, h, Field.merge_absent],
    fun h => by simp [Profile.merge, Field.merge_supplied _ _ h],
    fun h => by simp [Profile.merge, h, Field.merge_absent],
    fun h => by simp [Profile.merge, Field.merge_supplied _ _ h],
    fun h => by simp [Profile.merge, h, Field.merge_absent],
    fun h => by simp [Profile.merge, Field.merge_supplied _ _ h],
    fun links h => by simp [Profile.merge, h, Field.merge],
    rfl, rfl, rfl, rfl, ?_, ?_, rfl, rfl, rfl, rfl, rfl, rfl, rfl⟩
  · intro j y hj hy hc
    have := hfirst j y hj hy
    simp [hc] at this
  · simp [List.getElem?_set, hilt]
  · intro j hj
    simp only [List.getElem?_set]
    rw [if_neg (fun h => hj h.symm)]
  · simp

/-! ## `deletePost` and the rest of the store -/

/-- C18: `deletePost(id)` on the id of a stored post returns `true` and takes the first
post with that id out of `posts`: the posts before it keep their positions, the posts
after it move up by one, and nothing else changes, neither a post object nor the users,
the profiles or a counter. -/
theorem deletePost_removes_only_first (s : Store) (id : String)
    (hid : some id ∈ s.postIds) :
    ∃ (i r : Nat), s.posts[i]? = some r ∧ s.postId? r = some id ∧
      (∀ j y, j < i → s.posts[j]? = some y → s.postId? y ≠ some id) ∧
      (deletePost s id).1 = .ok true ∧
      (deletePost s id).2.posts = s.posts.take i ++ s.posts.drop (i + 1) ∧
      (∀ j, j < i → (deletePost s id).2.posts[j]? = s.posts[j]?) ∧
      (∀ j, i ≤ j → (deletePost s id).2.posts[j]? = s.posts[j + 1]?) ∧
      (deletePost s id).2.posts.length + 1 = s.posts.length ∧
      (deletePost s id).2.postObjs = s.postObjs ∧
      (deletePost s id).2.users = s.users ∧
      (deletePost s id).2.userObjs = s.userObjs ∧
      (deletePost s id).2.profiles = s.profiles ∧
      (deletePost s id).2.userIdCounter = s.userIdCounter ∧
      (deletePost s id).2.postIdCounter = s.postIdCounter ∧
      (deletePost s id).2.profileIdCounter = s.profileIdCounter := by
  obtain ⟨i, hi⟩ := findIndex_post_of_mem hid
  obtain ⟨r, hr, hp, hfirst⟩ := findIndex_eq_some hi
  have hilt : i < s.posts.length := (List.getElem?_eq_some_iff.1 hr).1
  have hrid : s.postId? r = some id := by simpa using hp
  have hdel : deletePost s id = (.ok true, { s with posts := s.posts.eraseIdx i }) := by
    unfold deletePost
    rw [hi]
  rw [hdel]
  refine ⟨i, r, hr, hrid, ?_, rfl, List.eraseIdx_eq_take_drop_succ _ _, ?_, ?_, ?_,
    rfl, rfl, rfl, rfl, rfl, rfl, rfl⟩
  · intro j y hj hy hc
    have := hfirst j y hj hy
    simp [hc] at this
  · intro j hj
    simp only [List.getElem?_eraseIdx, if_pos hj]
  · intro j hj
    simp only [List.getElem?_eraseIdx]
    rw [if_neg (by omega)]
  · simp only [List.length_eraseIdx, if_pos hilt]
    omega

/-! ## `createUser` -/

theorem Inv.userIdCounter_eq {s : Store} (h : Inv s) : s.userIdCounter = s.users.length := by
  have := congrArg List.length h.userIds
  simp only [Store.userIds, List.length_map, length_idsBelow] at this
  exact this.symm

/-- C19: in a reachable store `createUser(input)` returns, whatever the input (no
`username` or `email` is compared with a stored one), a new user object whose `id` is
the decimal of the user counter, whose other properties are the input's, and which it
has appended to `users`, together with one new profile, for that user, appended to
`profiles`.  The counter equals the number of users created so far, so the `k`-th user
gets `String(k - 1)`; on the empty store the id is `"0"`. -/
theorem createUser_appends (s : Store) (hs : Reachable s) (input : UserCreateInput)
    (now : Nat) :
    ∃ (r : Nat) (u : User) (p : Profile),
      (createUser s input now).1 = .ok r ∧
      (createUser s input now).2.userObjs[r]? = some u ∧
      u.id = jsString s.userIdCounter ∧ s.userIdCounter = s.users.length ∧
      u.username = input.username ∧ u.email = .val input.email ∧
      u.password = input.password ∧ u.firstName = input.firstName ∧
      u.lastName = input.lastName ∧ u.dateJoined = now ∧
      (createUser s input now).2.users = s.users ++ [r] ∧
      (createUser s input now).2.userObjs = s.userObjs ++ [u] ∧
      (createUser s input now).2.profiles = s.profiles ++ [p] ∧
      p.user = r ∧ p.id = jsString s.profileIdCounter ∧
      (createUser s input now).2.userIdCounter = s.userIdCounter + 1 ∧
      (createUser s input now).2.profileIdCounter = s.profileIdCounter + 1 ∧
      (createUser s input now).2.posts = s.posts ∧
      (createUser s input now).2.postObjs = s.postObjs ∧
      (createUser s input now).2.postIdCounter = s.postIdCounter ∧
      ((createUser Store.empty input now).2.userObjs.map (fun v => v.id)) = ["0"] :=
  ⟨s.userObjs.length, newUser s input now, newProfile s, rfl, by simp [createUser], rfl,
    hs.inv.userIdCounter_eq, rfl, rfl, rfl, rfl, rfl, rfl, rfl, rfl, rfl, rfl, rfl, rfl,
    rfl, rfl, rfl, rfl, by show [jsString 0] = ["0"]; decide⟩

/-! ## Further instances on concrete stores -/

theorem updateProfile_merges_witness :
    some "0" ∈ storeOnePost.profileUserIds ∧
    ∃ (i : Nat) (p q : Profile),
      storeOnePost.profiles[i]? = some p ∧ storeOnePost.userId? p.user = some "0" ∧
      (updateProfile storeOnePost "0"
        (ProfileUpdateInput.mk (.val "hi") .absent .null .absent .absent
          (.val [some (SocialLink.mk "web" "https://x.example")]))).1 = .ok (some q) ∧
      q.bio = .val "hi" ∧ q.location = p.location ∧ q.website = .null ∧
      q.socialLinks = .val [some (SocialLink.mk "web" "https://x.example")] ∧
      q.id = p.id ∧ q.user = p.user ∧ q.followers = p.followers ∧
      q.following = p.following ∧
      (updateProfile storeOnePost "0"
        (ProfileUpdateInput.mk (.val "hi") .absent .null .absent .absent
          (.val [some (SocialLink.mk "web" "https://x.example")]))).2.users
        = storeOnePost.users := by
  refine ⟨by decide, ?_⟩
  obtain ⟨i, p, q, h1, h2, _, h4, _, _, h7, h8, _, _, h11, _, _, _, _, _, _, h18, h19,
    h20, h21, h22, _, _, h25, _⟩ := updateProfile_merges storeOnePost "0"
      (ProfileUpdateInput.mk (.val "hi") .absent .null .absent .absent
        (.val [some (SocialLink.mk "web" "https://x.example")])) (by decide)
  exact ⟨i, p, q, h1, h2, h4, h7 (by decide), h8 rfl, h11 (by decide), h18 _ rfl,
    h19, h20, h21, h22, h25⟩

theorem deletePost_removes_only_first_witness :
    some "2" ∈ storeFivePosts.postIds ∧
    (deletePost storeFivePosts "2").2.posts = [0, 1, 3, 4] ∧
    ∃ (i r : Nat), storeFivePosts.posts[i]? = some r ∧
      storeFivePosts.postId? r = some "2" ∧
      (∀ j y, j < i → storeFivePosts.posts[j]? = some y →
        storeFivePosts.postId? y ≠ some "2") ∧
      (deletePost storeFivePosts "2").1 = .ok true ∧
      (deletePost storeFivePosts "2").2.posts
        = storeFivePosts.posts.take i ++ storeFivePosts.posts.drop (i + 1) ∧
      (∀ j, j < i → (deletePost storeFivePosts "2").2.posts[j]? = storeFivePosts.posts[j]?) ∧
      (∀ j, i ≤ j →
        (deletePost storeFivePosts "2").2.posts[j]? = storeFivePosts.posts[j + 1]?) ∧
      (deletePost storeFivePosts "2").2.posts.length + 1 = storeFivePosts.posts.length ∧
      (deletePost storeFivePosts "2").2.postObjs = storeFivePosts.postObjs ∧
      (deletePost storeFivePosts "2").2.users = storeFivePosts.users ∧
      (deletePost storeFivePosts "2").2.userObjs = storeFivePosts.userObjs ∧
      (deletePost storeFivePosts "2").2.profiles = storeFivePosts.profiles ∧
      (deletePost storeFivePosts "2").2.userIdCounter = storeFivePosts.userIdCounter ∧
      (deletePost storeFivePosts "2").2.postIdCounter = storeFivePosts.postIdCounter ∧
      (deletePost storeFivePosts "2").2.profileIdCounter
        = storeFivePosts.profileIdCounter :=
  ⟨by decide, by decide, deletePost_removes_only_first storeFivePosts "2" (by decide)⟩

theorem createUser_appends_witness :
    Reachable storeOnePost ∧
    (storeOnePost.userObjs.map (fun v => (v.username, v.email))) = [("al", .val "a@x.com")] ∧
    ((createUser storeOnePost alInput 3000).2.userObjs.map (fun v => v.id)) = ["0", "1"] ∧
    ∃ (r : Nat) (u : User) (p : Profile),
      (createUser storeOnePost alInput 3000).1 = .ok r ∧
      (createUser storeOnePost alInput 3000).2.userObjs[r]? = some u ∧
      u.id = jsString storeOnePost.userIdCounter ∧
      storeOnePost.userIdCounter = storeOnePost.users.length ∧
      u.username = alInput.username ∧ u.email = .val alInput.email ∧
      u.password = alInput.password ∧ u.firstName = alInput.firstName ∧
      u.lastName = alInput.lastName ∧ u.dateJoined = 3000 ∧
      (createUser storeOnePost alInput 3000).2.users = storeOnePost.users ++ [r] ∧
      (createUser storeOnePost alInput 3000).2.userObjs = storeOnePost.userObjs ++ [u] ∧
      (createUser storeOnePost alInput 3000).2.profiles = storeOnePost.profiles ++ [p] ∧
      p.user = r ∧ p.id = jsString storeOnePost.profileIdCounter ∧
      (createUser storeOnePost alInput 3000).2.userIdCounter
        = storeOnePost.userIdCounter + 1 ∧
      (createUser storeOnePost alInput 3000).2.profileIdCounter
        = storeOnePost.profileIdCounter + 1 ∧
      (createUser storeOnePost alInput 3000).2.posts = storeOnePost.posts ∧
      (createUser storeOnePost alInput 3000).2.postObjs = storeOnePost.postObjs ∧
      (createUser storeOnePost alInput 3000).2.postIdCounter = storeOnePost.postIdCounter ∧
      ((createUser Store.empty alInput 3000).2.userObjs.map (fun v => v.id)) = ["0"] :=
  ⟨reachable_storeOnePost, by decide, by decide,
    createUser_appends storeOnePost reachable_storeOnePost alInput 3000⟩

end YnovGraphql
